import Mathlib

/-!
Verification development for the tender-document parameter-extraction
pipeline.  The Python modules `page_tagger.py`, `parameter_matcher.py`,
`output_formatter.py` and `llm_interface.py` are shallowly embedded here:

* page text is modelled as `List Char` (Python `str`); `str.lower()` is
  modelled per-character (`Char.toLower`, ASCII; Hebrew has no case);
* Python floats are modelled as exact rationals `ℚ` (so `0.3` is `3/10`,
  `1.5` is `3/2`);
* the regex `r'\b' + re.escape(kw) + r'\b'` is modelled by a direct scan
  for an occurrence of `kw` flanked by word-boundary positions, where the
  word characters (`\w` with `re.UNICODE`) are modelled for the alphabets
  that actually occur in the documents: ASCII alphanumerics, underscore
  and the Hebrew block;
* keyword tables and tuning values that the programs load from
  `config/keywords_config.json` and the run configuration (files that are
  not part of the repository) are inputs of the embedded functions;
* `list.sort` / `sorted` (Python's stable sort) is modelled with
  `List.insertionSort`, which is also stable.
-/

namespace TenderSpec

/-! ## Text utilities (Python string primitives) -/

/-- Python `kw in s` (substring containment). -/
def containsSub (kw : List Char) : List Char → Bool
  | [] => kw.isEmpty
  | c :: rest => kw.isPrefixOf (c :: rest) || containsSub kw rest

/-- The scanning loop behind Python `s.count(kw)`: a left-to-right scan
counting non-overlapping occurrences; after a match the next `kw.length - 1`
characters are inside the match and are skipped (`skip` counts them down). -/
def countOccurAux (kw : List Char) : Nat → List Char → Nat
  | skip, [] => if kw.isEmpty && skip == 0 then 1 else 0
  | skip + 1, _ :: rest => countOccurAux kw skip rest
  | 0, c :: rest =>
    if kw.isPrefixOf (c :: rest)
    then 1 + countOccurAux kw (kw.length - 1) rest
    else countOccurAux kw 0 rest

/-- Python `s.count(kw)`: the number of non-overlapping occurrences of `kw`
in `s` (for the empty pattern Python returns `len(s) + 1`). -/
def countOccur (kw s : List Char) : Nat := countOccurAux kw 0 s

/-- Word characters for the regex `\b` assertion (`\w` under `re.UNICODE`),
modelled for ASCII alphanumerics, underscore and the Hebrew block that
occur in this domain's text. -/
def isWordChar (c : Char) : Bool :=
  c.isAlphanum || c == '_' || (0x5D0 ≤ c.toNat && c.toNat ≤ 0x5EA)

def isWordOpt : Option Char → Bool
  | none => false
  | some c => isWordChar c

/-- A regex word boundary sits between two (possibly absent) characters of
which exactly one is a word character. -/
def wordBoundary (a b : Option Char) : Bool :=
  isWordOpt a != isWordOpt b

/-- Python `len(re.findall(r'\b' + re.escape(kw) + r'\b', s))`: a
left-to-right scan counting non-overlapping occurrences of `kw` whose two
ends both sit on a word boundary.  `prev` is the character just before the
current position and `skip` counts down the characters inside a previous
match.  (For the degenerate empty pattern the scan counts the boundary
positions, as `re.findall` does for `r'\b\b'`.) -/
def countBoundaryAux (kw : List Char) : Option Char → Nat → List Char → Nat
  | prev, skip, [] =>
    if kw.isEmpty && skip == 0 && wordBoundary prev none then 1 else 0
  | _, skip + 1, c :: rest => countBoundaryAux kw (some c) skip rest
  | prev, 0, c :: rest =>
    if kw.isEmpty
    then
      (if wordBoundary prev (some c) then 1 else 0) + countBoundaryAux kw (some c) 0 rest
    else
      if kw.isPrefixOf (c :: rest)
          && wordBoundary prev kw.head?
          && wordBoundary kw.getLast? (((c :: rest).drop kw.length).head?)
      then 1 + countBoundaryAux kw (some c) (kw.length - 1) rest
      else countBoundaryAux kw (some c) 0 rest

def countBoundary (kw s : List Char) : Nat := countBoundaryAux kw none 0 s

/-- Python `re.search(r'\b' + re.escape(kw) + r'\b', s)` viewed as a
presence test. -/
def hasBoundary (kw s : List Char) : Bool := countBoundary kw s != 0

/-- The literal Hebrew alphabet string used by
`parameter_matcher._search_pages_by_keywords` (the 22 base letters, no
final forms). -/
def hebrewLetters : List Char := "אבגדהוזחטיכלמנסעפצקרשת".data

def hasHebrewChar (kw : List Char) : Bool := kw.any (hebrewLetters.contains ·)

def lowerChars (s : List Char) : List Char := s.map Char.toLower

/-- Python `len(s.split())`: the number of maximal runs of non-whitespace
characters. -/
def countWordsAux : Bool → List Char → Nat
  | _, [] => 0
  | inWord, c :: rest =>
    if c.isWhitespace then countWordsAux false rest
    else (if inWord then 0 else 1) + countWordsAux true rest

def countWords (s : List Char) : Nat := countWordsAux false s

/-! ## Page model (`document_parser.DocumentPage` after tagging)

`content` is the page's `cleaned_content`; `relevantParameters` and
`paramConfidence` model the entries the tagger stores in
`metadata['relevant_parameters']` and
`metadata['confidence_scores']['parameter_confidence']`. -/

structure DocumentPage where
  pageNumber : Nat
  content : String
  relevantParameters : List String
  paramConfidence : List (String × ℚ)
deriving DecidableEq

/-- Models `word_count = len(cleaned_content.split())` of the page model. -/
def DocumentPage.wordCount (p : DocumentPage) : Nat := countWords p.content.data

/-! ## Page classifier (`page_tagger.py`)

The keyword tables are inputs: the program loads them from
`config/keywords_config.json`, which is not part of the repository.  An
association list keeps the iteration order of the corresponding Python
`dict` (insertion order).  -/

inductive PageType where
  | coverPage
  | tableOfContents
  | generalInfo
  | technicalSpecs
  | financialInfo
  | legalTerms
  | evaluationCriteria
  | submissionRequirements
  | contactInfo
  | appendix
  | other
deriving DecidableEq

/-- Per-type score of `_classify_page_type`: one point for each keyword
contained in the (lower-cased) content, plus one more for each contained
keyword that also matches at a word boundary.  (The boundary test is
nested inside the containment test in the source.) -/
def typeScore (kws : List String) (contentLower : List Char) : Nat :=
  kws.foldl
    (fun acc kw =>
      if containsSub kw.data contentLower
      then acc + 1 + (if hasBoundary kw.data contentLower then 1 else 0)
      else acc)
    0

/-- Python `max(items, key=lambda x: x[1])`: the first pair attaining the
maximal second component (later pairs replace the current best only when
strictly greater). -/
def firstMaxBy : List (PageType × Nat) → Option (PageType × Nat)
  | [] => none
  | x :: xs =>
    match firstMaxBy xs with
    | none => some x
    | some y => if x.2 < y.2 then some y else some x

/-- Models `_classify_page_type`, on the already lower-cased content.  (On an
empty keyword table the Python `max()` would raise; the model returns
`other`.) -/
def classifyPageType (table : List (PageType × List String)) (contentLower : List Char) :
    PageType :=
  match firstMaxBy (table.map (fun e => (e.1, typeScore e.2 contentLower))) with
  | some (t, s) => if 0 < s then t else PageType.other
  | none => PageType.other

/-- Per-parameter score of `_find_relevant_parameters`: here the
containment point and the boundary point are two independent tests. -/
def relevanceScore (kws : List String) (contentLower : List Char) : Nat :=
  kws.foldl
    (fun acc kw =>
      acc + (if containsSub kw.data contentLower then 1 else 0)
          + (if hasBoundary kw.data contentLower then 1 else 0))
    0

/-- Models `_find_relevant_parameters`: parameters whose score reaches 2. -/
def findRelevantParameters (ptable : List (String × List String))
    (contentLower : List Char) : List String :=
  ptable.filterMap
    (fun e => if 2 ≤ relevanceScore e.2 contentLower then some e.1 else none)

/-- Fraction of a parameter's keywords contained in the content, used by
`_calculate_confidence_scores` for `parameter_confidence`. -/
def keywordFraction (kws : List String) (contentLower : List Char) : ℚ :=
  if kws.length = 0 then 0
  else (kws.countP (fun kw => containsSub kw.data contentLower) : ℚ) / (kws.length : ℚ)

/-- The `parameter_confidence` table `_calculate_confidence_scores` stores
in the page metadata. -/
def parameterConfidenceScores (ptable : List (String × List String))
    (contentLower : List Char) (relevant : List String) : List (String × ℚ) :=
  relevant.filterMap
    (fun param => (ptable.lookup param).map (fun kws => (param, keywordFraction kws contentLower)))

/-- Models `get_pages_with_parameter`. -/
def getPagesWithParameter (pages : List DocumentPage) (parameter : String) :
    List DocumentPage :=
  pages.filter (fun p => parameter ∈ p.relevantParameters)

/-! ## Parameter matcher (`parameter_matcher.py`) -/

structure ParameterMatch where
  parameter : String
  pages : List DocumentPage
  confidence : ℚ
deriving DecidableEq

/-- Per-page score of `_search_pages_by_keywords`: occurrence count, plus
twice the word-boundary match count, plus half the occurrence count again
for keywords containing a Hebrew letter (`keyword_count * 1.5`). -/
def keywordScore (kws : List String) (contentLower : List Char) : ℚ :=
  kws.foldl
    (fun acc kw =>
      let kwl := lowerChars kw.data
      let c := countOccur kwl contentLower
      let b := countBoundary kwl contentLower
      acc + (c : ℚ) + 2 * (b : ℚ) + (if hasHebrewChar kw.data then (c : ℚ) * (3 / 2) else 0))
    0

/-- The scored candidate list of `_search_pages_by_keywords`: empty pages
are skipped, pages with score 0 are not recorded. -/
def scoredPages (pages : List DocumentPage) (kws : List String) : List (DocumentPage × ℚ) :=
  pages.filterMap
    (fun p =>
      if p.wordCount = 0 then none
      else
        let s := keywordScore kws (lowerChars p.content.data)
        if 0 < s then some (p, s) else none)

/-- Stable descending sort by score (`page_scores.sort(key=..., reverse=True)`). -/
def sortScoredDesc (l : List (DocumentPage × ℚ)) : List (DocumentPage × ℚ) :=
  List.insertionSort (fun a b => b.2 ≤ a.2) l

/-- The diversity-selection loop of `_search_pages_by_keywords`: walk the
score-sorted candidates, keeping a page when it clears the threshold, the
selection is not full, and its tens-bucket of page numbers is new (or the
selection is still below half full). -/
def diversitySelect (thr : ℚ) (maxPages : Nat) :
    List (DocumentPage × ℚ) → List DocumentPage → List Nat → List DocumentPage
  | [], sel, _ => sel
  | (p, s) :: rest, sel, used =>
    if thr ≤ s ∧ sel.length < maxPages ∧ (p.pageNumber / 10 ∉ used ∨ sel.length < maxPages / 2)
    then diversitySelect thr maxPages rest (sel ++ [p]) (p.pageNumber / 10 :: used)
    else diversitySelect thr maxPages rest sel used

/-- Models `_search_pages_by_keywords`. -/
def searchPagesByKeywords (pages : List DocumentPage) (kws : List String)
    (maxPages : Nat) : List DocumentPage :=
  match sortScoredDesc (scoredPages pages kws) with
  | [] => []
  | top :: rest =>
    let thr := max 1 (top.2 * (3 / 10))
    (diversitySelect thr maxPages (top :: rest) [] []).take maxPages

/-- The `generic_search.parameter_name_transformations` configuration; an
`additional_patterns` entry `pat.format(parameter=p)` is modelled as a
function of the parameter name. -/
structure GenericSearchConfig where
  includeOriginal : Bool := true
  replaceUnderscore : Bool := true
  additionalPatterns : List (String → String) := []

def underscoreToSpace (s : String) : String :=
  String.mk (s.data.map (fun c => if c = '_' then ' ' else c))

/-- Models `_generate_parameter_keywords`. -/
def generateParameterKeywords (cfg : GenericSearchConfig) (parameter : String) :
    List String :=
  (if cfg.includeOriginal then [parameter] else [])
    ++ (if cfg.replaceUnderscore then [underscoreToSpace parameter] else [])
    ++ cfg.additionalPatterns.map (fun f => f parameter)

/-- The matcher's configuration state: the per-parameter keyword table and
generic-search rules from `keywords_config.json`, plus the run
configuration's `max_pages_per_prompt` (default 3), which the matcher
itself never reads. -/
structure MatcherConfig where
  parameterKeywords : List (String × List String)
  genericSearch : GenericSearchConfig := {}
  maxPagesPerPrompt : Nat := 3

/-- Models `self.parameter_keywords.get(param, [])`. -/
def paramKeywords (cfg : MatcherConfig) (param : String) : List String :=
  (cfg.parameterKeywords.lookup param).getD []

def findClientNamePages (cfg : MatcherConfig) (pages : List DocumentPage) :
    List DocumentPage :=
  searchPagesByKeywords pages (paramKeywords cfg "client_name") 3

def findTenderNamePages (cfg : MatcherConfig) (pages : List DocumentPage) :
    List DocumentPage :=
  let kws := paramKeywords cfg "tender_name"
  let early := searchPagesByKeywords (pages.take 15) kws 2
  if early.isEmpty then searchPagesByKeywords pages kws 3 else early

def findThresholdPages (cfg : MatcherConfig) (pages : List DocumentPage) :
    List DocumentPage :=
  searchPagesByKeywords pages (paramKeywords cfg "threshold_conditions") 4

def findPeriodPages (cfg : MatcherConfig) (pages : List DocumentPage) :
    List DocumentPage :=
  searchPagesByKeywords pages (paramKeywords cfg "contract_period") 4

def findEvaluationPages (cfg : MatcherConfig) (pages : List DocumentPage) :
    List DocumentPage :=
  searchPagesByKeywords pages (paramKeywords cfg "evaluation_method") 4

def findGuaranteePages (cfg : MatcherConfig) (pages : List DocumentPage) :
    List DocumentPage :=
  searchPagesByKeywords pages (paramKeywords cfg "bid_guarantee") 4

/-- The deduplication loop of `_find_author_pages` (first occurrence of
each page number wins). -/
def dedupByPageNumber : List DocumentPage → List Nat → List DocumentPage
  | [], _ => []
  | p :: rest, seen =>
    if p.pageNumber ∈ seen then dedupByPageNumber rest seen
    else p :: dedupByPageNumber rest (p.pageNumber :: seen)

def findAuthorPages (cfg : MatcherConfig) (pages : List DocumentPage) :
    List DocumentPage :=
  let kws := paramKeywords cfg "idea_author"
  let early := searchPagesByKeywords (pages.take 3) kws 2
  let late := searchPagesByKeywords (pages.drop (pages.length - 3)) kws 2
  dedupByPageNumber (early ++ late) []

def genericParameterSearch (cfg : MatcherConfig) (parameter : String)
    (pages : List DocumentPage) : List DocumentPage :=
  searchPagesByKeywords pages (generateParameterKeywords cfg.genericSearch parameter) 3

/-- Models `_find_pages_by_content_analysis`: the strategy dispatch table. -/
def findPagesByContentAnalysis (cfg : MatcherConfig) (parameter : String)
    (pages : List DocumentPage) : List DocumentPage :=
  if parameter = "client_name" then findClientNamePages cfg pages
  else if parameter = "tender_name" then findTenderNamePages cfg pages
  else if parameter = "threshold_conditions" then findThresholdPages cfg pages
  else if parameter = "contract_period" then findPeriodPages cfg pages
  else if parameter = "evaluation_method" then findEvaluationPages cfg pages
  else if parameter = "bid_guarantee" then findGuaranteePages cfg pages
  else if parameter = "idea_author" then findAuthorPages cfg pages
  else genericParameterSearch cfg parameter pages

/-- Stable descending sort by word count
(`sort(key=lambda p: p.word_count, reverse=True)`). -/
def sortByWordCountDesc (l : List DocumentPage) : List DocumentPage :=
  List.insertionSort (fun a b => b.wordCount ≤ a.wordCount) l

/-- The diversity loop of `_use_fallback_strategy` (twenties buckets,
hard cap of 3). -/
def fallbackDiversitySelect :
    List DocumentPage → List DocumentPage → List Nat → List DocumentPage
  | [], sel, _ => sel
  | p :: rest, sel, used =>
    if p.pageNumber / 20 ∉ used ∧ sel.length < 3
    then fallbackDiversitySelect rest (sel ++ [p]) (p.pageNumber / 20 :: used)
    else fallbackDiversitySelect rest sel used

/-- The `content_pages` selection of `_use_fallback_strategy`: pages of
moderate word count, else pages with more than 50 words. -/
def fallbackContentPages (pages : List DocumentPage) : List DocumentPage :=
  let mid := pages.filter (fun p => 100 ≤ p.wordCount ∧ p.wordCount ≤ 800)
  if mid.isEmpty then pages.filter (fun p => 50 < p.wordCount) else mid

/-- The diverse-selection tail of `_use_fallback_strategy`: sort by word
count, pick diverse pages, then top up from the remaining sorted pages.
(Python's `p not in selected_pages` compares by object identity; the model
compares structurally, which coincides whenever the input pages are
pairwise distinct.) -/
def fallbackSelect (contentPages : List DocumentPage) : List DocumentPage :=
  let sorted := sortByWordCountDesc contentPages
  let selected := fallbackDiversitySelect sorted [] []
  let final :=
    if selected.length < 3
    then selected ++ (sorted.filter (fun p => p ∉ selected)).take (3 - selected.length)
    else selected
  final.take 3

/-- Models `_use_fallback_strategy`. -/
def useFallbackStrategy (cfg : MatcherConfig) (parameter : String)
    (pages : List DocumentPage) : List DocumentPage :=
  let broad := searchPagesByKeywords pages
      (generateParameterKeywords cfg.genericSearch parameter) 3
  if ¬ broad.isEmpty then broad
  else if (fallbackContentPages pages).isEmpty then pages.take 3
  else fallbackSelect (fallbackContentPages pages)

/-- Models `_calculate_match_confidence`. -/
def calculateMatchConfidence (parameter : String) (pages : List DocumentPage) : ℚ :=
  if pages.isEmpty then 0
  else
    let pageCountScore : ℚ := min ((pages.length : ℚ) / 3) 1
    let avgWords : ℚ := ((pages.map (fun p => (p.wordCount : ℚ))).sum) / (pages.length : ℚ)
    let contentScore : ℚ := min (avgWords / 500) 1
    let paramConfs := pages.filterMap (fun p => p.paramConfidence.lookup parameter)
    let factors := [pageCountScore, contentScore]
      ++ (if paramConfs.isEmpty then [] else [paramConfs.sum / (paramConfs.length : ℚ)])
    if factors.isEmpty then 1 / 2 else factors.sum / (factors.length : ℚ)

/-- Stable ascending sort by page number (`sort(key=lambda p: p.page_number)`). -/
def sortByPageNumber (l : List DocumentPage) : List DocumentPage :=
  List.insertionSort (fun a b => a.pageNumber ≤ b.pageNumber) l

/-- Models `_match_single_parameter`. -/
def matchSingleParameter (cfg : MatcherConfig) (parameter : String)
    (pages : List DocumentPage) : ParameterMatch :=
  if parameter = "idea_author" then ⟨parameter, [], 0⟩
  else
    let c1 := findPagesByContentAnalysis cfg parameter pages
    let c2 :=
      if c1.isEmpty then
        let t := getPagesWithParameter pages parameter
        if 6 < t.length then (sortByWordCountDesc t).take 4 else t
      else c1
    let c3 := if c2.isEmpty then useFallbackStrategy cfg parameter pages else c2
    ⟨parameter, sortByPageNumber c3, calculateMatchConfidence parameter c3⟩

/-- Models `match_parameters_to_pages` processes the parameters in order, one
match each. -/
def matchParametersToPages (cfg : MatcherConfig) (parameters : List String)
    (pages : List DocumentPage) : List ParameterMatch :=
  parameters.map (fun parameter => matchSingleParameter cfg parameter pages)

/-! ## Extraction client (`llm_interface.py`)

The external generation capability is an oracle `Nat → Option String`
giving the outcome of each call attempt: `none` models a raised exception,
`some t` a response whose text is `t` (the code treats an empty text as a
failure too).  Response parsing (`_process_response`, JSON plus regex
fallbacks) happens only on the success path and is abstracted as an
uninterpreted function `processResponse`. -/

structure LLMResponse where
  parameter : String
  extractedValue : String
  details : String
  confidence : ℚ
  tokensUsed : Nat
  pageNumbers : List Nat
deriving DecidableEq

/-- Models `is_found = extracted_value != "NOT_FOUND"` (set in `__init__`). -/
def LLMResponse.isFound (r : LLMResponse) : Bool :=
  r.extractedValue != "NOT_FOUND"

/-- An attempt outcome that the retry loop treats as a failure. -/
def callFails : Option String → Bool
  | none => true
  | some t => t == ""

/-- The body of `_make_api_call_with_retry`: `attempt` is the index of the
current attempt, the second argument the number of attempts left.
`Except.error` models the `LLMAPIError` raised after the last failed
attempt; `Except.ok none` models Python falling off the loop (zero
configured attempts) and implicitly returning `None`. -/
def retryLoop (oracle : Nat → Option String) (attempt : Nat) :
    Nat → Except String (Option String)
  | 0 => Except.ok none
  | remaining + 1 =>
    if callFails (oracle attempt)
    then
      if remaining = 0
      then Except.error "All API call attempts failed"
      else retryLoop oracle (attempt + 1) remaining
    else Except.ok (oracle attempt)

def makeApiCallWithRetry (retryAttempts : Nat) (oracle : Nat → Option String) :
    Except String (Option String) :=
  retryLoop oracle 0 retryAttempts

/-- The uncertainty hedge words of `_calculate_confidence`. -/
def uncertaintyIndicators : List String :=
  ["maybe", "perhaps", "possibly", "unclear", "ambiguous"]

/-- Models `_calculate_confidence` (pure function of the extracted value and
details; the `response` argument is unused in the source). -/
def calculateLLMConfidence (extractedValue details : String) : ℚ :=
  if extractedValue = "NOT_FOUND" then 0
  else
    let answerWords := countWords extractedValue.data
    let detailsWords := countWords details.data
    let f1 : ℚ :=
      if 2 ≤ answerWords ∧ answerWords ≤ 50 then 8 / 10
      else if 0 < answerWords then 6 / 10
      else 2 / 10
    let f2 : ℚ :=
      if 5 < detailsWords then 8 / 10
      else if 0 < detailsWords then 6 / 10
      else 4 / 10
    let f3 : List ℚ := if extractedValue.data.any Char.isDigit then [7 / 10] else []
    let f4 : List ℚ := if extractedValue.data.any Char.isUpper then [6 / 10] else []
    let combined := lowerChars (extractedValue.data ++ ' ' :: details.data)
    let f5 : ℚ :=
      if uncertaintyIndicators.any (fun w => containsSub w.data combined)
      then 3 / 10
      else 8 / 10
    let factors := [f1, f2] ++ f3 ++ f4 ++ [f5]
    if factors.isEmpty then 1 / 2 else min (factors.sum / (factors.length : ℚ)) 1

/-- The error response `extract_parameter` builds in its `except` handler. -/
def errorResponse (parameter : String) (pageNumbers : List Nat) : LLMResponse :=
  ⟨parameter, "NOT_FOUND", "", 0, 0, pageNumbers⟩

/-- Models `extract_parameter`.  Every failure path is caught and turned into
`errorResponse`; a `None` API result makes `_process_response` fail
internally and fold to `("NOT_FOUND", "")`. -/
def extractParameter (retryAttempts : Nat) (processResponse : String → String × String)
    (parameter prompt : String) (pageNumbers : List Nat)
    (oracle : Nat → Option String) : LLMResponse :=
  if prompt.data.all Char.isWhitespace then errorResponse parameter pageNumbers
  else
    match makeApiCallWithRetry retryAttempts oracle with
    | Except.error _ => errorResponse parameter pageNumbers
    | Except.ok apiResult =>
      let vd := match apiResult with
        | none => ("NOT_FOUND", "")
        | some text => processResponse text
      { parameter := parameter
        extractedValue := vd.1
        details := vd.2
        confidence := calculateLLMConfidence vd.1 vd.2
        tokensUsed := countWords prompt.data + countWords vd.1.data + countWords vd.2.data
        pageNumbers := pageNumbers }

/-- One entry of the prompt list handed to `extract_batch_parameters`. -/
structure PromptData where
  parameter : String
  prompt : Option String
  pageNumbers : List Nat

/-- Models `extract_batch_parameters`: the loop body, one response per prompt
entry, `None` prompts short-circuiting to `NOT_FOUND`.  The oracle is
keyed by the prompt text. -/
def extractBatchParameters (retryAttempts : Nat)
    (processResponse : String → String × String)
    (oracle : String → Nat → Option String) : List PromptData → List LLMResponse
  | [] => []
  | pd :: rest =>
    let response :=
      match pd.prompt with
      | none => ⟨pd.parameter, "NOT_FOUND", "", 0, 0, []⟩
      | some prompt =>
        extractParameter retryAttempts processResponse pd.parameter prompt
          pd.pageNumbers (oracle prompt)
    response :: extractBatchParameters retryAttempts processResponse oracle rest

/-! ## Result formatter (`output_formatter.py`)

Formatted records are JSON-like dictionaries; the value type distinguishes
strings, integers and non-integral numbers so that the validator's
`isinstance(score, int)` test is expressible. -/

inductive JValue where
  | s : String → JValue
  | i : Int → JValue
  | q : ℚ → JValue
  | dict : List (String × JValue) → JValue

/-- Models `_convert_confidence_to_score`. -/
def convertConfidenceToScore (confidence : ℚ) : Int :=
  if 9 / 10 ≤ confidence then 5
  else if 8 / 10 ≤ confidence then 4
  else if 6 / 10 ≤ confidence then 3
  else if 4 / 10 ≤ confidence then 2
  else if 2 / 10 ≤ confidence then 1
  else 0

/-- The fixed Hebrew page label (`f"עמוד {n}"`). -/
def pageLabel (n : Nat) : String := "עמוד " ++ toString n

/-- The fixed Hebrew "not found" phrase. -/
def notFoundSource : String := "לא נמצא"

/-- Models `_generate_source`. -/
def generateSource (r : LLMResponse) : String :=
  if r.isFound = false ∨ r.pageNumbers = [] then notFoundSource
  else
    match List.insertionSort (fun a b : Nat => a ≤ b) r.pageNumbers with
    | [n] => pageLabel n
    | [a, b] => pageLabel a ++ ", " ++ pageLabel b
    | sorted => String.intercalate ", " (sorted.map pageLabel)

/-- The record `format_results` builds for one response. -/
def formatRecord (r : LLMResponse) : JValue :=
  JValue.dict
    [("answer", JValue.s (if r.isFound then r.extractedValue else "")),
     ("details", JValue.s (if r.isFound then r.details else "")),
     ("source", JValue.s (generateSource r)),
     ("score", JValue.i (convertConfidenceToScore r.confidence))]

/-- Models `format_results`. -/
def formatResults (responses : List LLMResponse) : List (String × JValue) :=
  responses.map (fun r => (r.parameter, formatRecord r))

/-- The `score` test of `validate_output`: present, an `int`
(`isinstance(score, int)`), and in `[0, 5]`. -/
def scoreFieldOk : Option JValue → Bool
  | some (JValue.i n) => decide (0 ≤ n) && decide (n ≤ 5)
  | _ => false

/-- The per-record checks of `validate_output`: all four required fields
present, then the score test. -/
def recordFieldsOk (fields : List (String × JValue)) : Bool :=
  (["answer", "details", "source", "score"].all fun f => (fields.lookup f).isSome)
    && scoreFieldOk (fields.lookup "score")

/-- Models `validate_output`: every entry must be a dictionary passing the record
checks (the Python loop returns `False` at the first offender). -/
def validateOutput : List (String × JValue) → Bool
  | [] => true
  | (_, JValue.dict fields) :: rest => recordFieldsOk fields && validateOutput rest
  | _ => false

/-- Models `main.format_and_save_results`: validation gates every file write
(`raise OutputFormattingError` before any of the three writes). -/
def formatAndSaveResults (results : List (String × JValue)) : Except String Unit :=
  if validateOutput results then Except.ok () else Except.error "Output validation failed"

/-! ## Spec-side definitions

Definitions transcribed from the specification's wording (not from the
source), named `...Spec`, used to compare a spec sentence against the
embedded code. -/

/-- Page-type score as the specification words it: "score = (keyword
occurrence count) + (extra point per keyword matched at a word
boundary)". -/
def typeScoreSpec (kws : List String) (contentLower : List Char) : Nat :=
  kws.foldl
    (fun acc kw =>
      acc + countOccur kw.data contentLower
          + (if hasBoundary kw.data contentLower then 1 else 0))
    0

/-- The classifier as the specification words it: the spec-side score,
maximum with ties broken by table order, `other` when all scores are
zero. -/
def classifyPageTypeSpec (table : List (PageType × List String))
    (contentLower : List Char) : PageType :=
  match firstMaxBy (table.map (fun e => (e.1, typeScoreSpec e.2 contentLower))) with
  | some (t, s) => if 0 < s then t else PageType.other
  | none => PageType.other

/-! ## Auxiliary notions used by the statements -/

/-- The page numbers of a list of pages, in order. -/
def pageNums (l : List DocumentPage) : List Nat := l.map DocumentPage.pageNumber

/-- The score of the top-scoring candidate page (`page_scores[0][1]` after
the descending sort), `0` when no page scored. -/
def topKeywordScore (pages : List DocumentPage) (kws : List String) : ℚ :=
  match sortScoredDesc (scoredPages pages kws) with
  | [] => 0
  | top :: _ => top.2

/-! ## Concrete instances used by counterexamples and witnesses -/

/-- A matcher configuration with an empty keyword table and the default
tuning values (`max_pages_per_prompt = 3`). -/
def sampleConfig : MatcherConfig := { parameterKeywords := [] }

/-- Five tagged pages, two of which share page number 3, none of which
contains the parameter name `foo`. -/
def samplePages : List DocumentPage :=
  [⟨1, "aaa bbb", ["foo"], []⟩, ⟨2, "aaa bbb", ["foo"], []⟩,
   ⟨3, "aaa bbb", ["foo"], []⟩, ⟨3, "ccc ddd", ["foo"], []⟩,
   ⟨4, "aaa bbb", ["foo"], []⟩]

/-- Two whitespace-only pages. -/
def wsPages : List DocumentPage :=
  [⟨1, " ", [], []⟩, ⟨2, " ", [], []⟩]

/-- A page text of 51 words (clears the fallback's 50-word bar). -/
def richPageText : String :=
  "w w w w w w w w w w w w w w w w w w w w w w w w w w w w w w w w w w w w w w w w w w w w w w w w w w w"

/-! # Theorems -/

/-- C1: for the sentinel parameter `idea_author`, `_match_single_parameter`
returns an empty match (no pages, confidence exactly 0), for every page
list, page contents, and loaded configuration. -/
theorem idea_author_always_empty_match (cfg : MatcherConfig) (pages : List DocumentPage) :
    matchSingleParameter cfg "idea_author" pages =
      { parameter := "idea_author", pages := [], confidence := 0 } := rfl

/-- C3: `_convert_confidence_to_score` is monotone, total with values in
`[0, 5]`, and takes the spec's sample values at 0.95, 0.85, 0.65, 0.45,
0.25 and 0.05. -/
theorem convertConfidenceToScore_monotone_total :
    (∀ c1 c2 : ℚ, c1 ≤ c2 → convertConfidenceToScore c1 ≤ convertConfidenceToScore c2)
    ∧ (∀ c : ℚ, 0 ≤ convertConfidenceToScore c ∧ convertConfidenceToScore c ≤ 5)
    ∧ convertConfidenceToScore (95 / 100) = 5
    ∧ convertConfidenceToScore (85 / 100) = 4
    ∧ convertConfidenceToScore (65 / 100) = 3
    ∧ convertConfidenceToScore (45 / 100) = 2
    ∧ convertConfidenceToScore (25 / 100) = 1
    ∧ convertConfidenceToScore (5 / 100) = 0 := by
  refine ⟨?_, ?_, ?_, ?_, ?_, ?_, ?_, ?_⟩
  · intro c1 c2 h
    unfold convertConfidenceToScore
    split_ifs <;> first | omega | linarith
  · intro c
    unfold convertConfidenceToScore
    split_ifs <;> omega
  all_goals norm_num [convertConfidenceToScore]

/-- Witness for C3 at concrete confidences. -/
theorem convertConfidenceToScore_monotone_total_witness :
    (1 : ℚ) / 4 ≤ 1 / 2
    ∧ convertConfidenceToScore (1 / 4) ≤ convertConfidenceToScore (1 / 2) :=
  ⟨by norm_num,
   convertConfidenceToScore_monotone_total.1 (1 / 4) (1 / 2) (by norm_num)⟩

/-- C10: a `NOT_FOUND` response formats to an empty answer and details and
the fixed Hebrew "not found" source; the same source is produced whenever
no page numbers are cited, even for a found value. -/
theorem notFound_record_shape (r : LLMResponse) :
    (r.extractedValue = "NOT_FOUND" →
      formatRecord r = JValue.dict
        [("answer", JValue.s ""), ("details", JValue.s ""),
         ("source", JValue.s notFoundSource),
         ("score", JValue.i (convertConfidenceToScore r.confidence))])
    ∧ (r.pageNumbers = [] → generateSource r = notFoundSource) := by
  constructor
  · intro h
    have hf : r.isFound = false := by simp [LLMResponse.isFound, h]
    simp [formatRecord, generateSource, hf]
  · intro h
    simp [generateSource, h]

/-- Witness for C10 at a concrete `NOT_FOUND` response. -/
theorem notFound_record_shape_witness :
    (({ parameter := "p", extractedValue := "NOT_FOUND", details := "", confidence := 0,
        tokensUsed := 0, pageNumbers := [3] } : LLMResponse).extractedValue = "NOT_FOUND")
    ∧ formatRecord
        { parameter := "p", extractedValue := "NOT_FOUND", details := "", confidence := 0,
          tokensUsed := 0, pageNumbers := [3] }
      = JValue.dict
          [("answer", JValue.s ""), ("details", JValue.s ""),
           ("source", JValue.s notFoundSource),
           ("score", JValue.i (convertConfidenceToScore (0 : ℚ)))] :=
  ⟨rfl,
   (notFound_record_shape
     { parameter := "p", extractedValue := "NOT_FOUND", details := "", confidence := 0,
       tokensUsed := 0, pageNumbers := [3] }).1 rfl⟩

/-- The per-record field checks of `validate_output`, expanded. -/
theorem recordFieldsOk_iff (fields : List (String × JValue)) :
    recordFieldsOk fields = true ↔
      (fields.lookup "answer").isSome ∧ (fields.lookup "details").isSome
      ∧ (fields.lookup "source").isSome
      ∧ ∃ n : Int, fields.lookup "score" = some (JValue.i n) ∧ 0 ≤ n ∧ n ≤ 5 := by
  unfold recordFieldsOk scoreFieldOk
  cases hl : fields.lookup "score" with
  | none => simp [hl]
  | some v =>
    cases v with
    | i n => simp [hl, and_assoc]
    | s x => simp [hl]
    | q x => simp [hl]
    | dict x => simp [hl]

/-- C8: `validate_output` accepts exactly the outputs whose every record is
a dictionary carrying the four required fields with an integer score in
`[0, 5]`, and a rejected output makes the pipeline fail before any file is
written. -/
theorem validateOutput_spec (results : List (String × JValue)) :
    (validateOutput results = true ↔
      ∀ e ∈ results, ∃ fields, e.2 = JValue.dict fields
        ∧ (fields.lookup "answer").isSome ∧ (fields.lookup "details").isSome
        ∧ (fields.lookup "source").isSome
        ∧ ∃ n : Int, fields.lookup "score" = some (JValue.i n) ∧ 0 ≤ n ∧ n ≤ 5)
    ∧ (validateOutput results = false →
      formatAndSaveResults results = Except.error "Output validation failed") := by
  constructor
  · induction results with
    | nil => simp [validateOutput]
    | cons e rest ih =>
      obtain ⟨param, data⟩ := e
      cases data with
      | dict fields =>
        simp only [validateOutput, Bool.and_eq_true, ih, recordFieldsOk_iff,
          List.forall_mem_cons]
        constructor
        · rintro ⟨h1, h2⟩
          exact ⟨⟨fields, rfl, h1⟩, h2⟩
        · rintro ⟨⟨fields', hf, h1⟩, h2⟩
          cases hf
          exact ⟨h1, h2⟩
      | s x => simp [validateOutput]
      | i x => simp [validateOutput]
      | q x => simp [validateOutput]
  · intro h
    simp [formatAndSaveResults, h]

/-- Witness for C8: a record missing `score` is rejected and blocks the
writes. -/
theorem validateOutput_spec_witness :
    validateOutput [("client_name", JValue.dict
        [("answer", JValue.s "x"), ("details", JValue.s ""), ("source", JValue.s "y")])]
      = false
    ∧ formatAndSaveResults [("client_name", JValue.dict
        [("answer", JValue.s "x"), ("details", JValue.s ""), ("source", JValue.s "y")])]
      = Except.error "Output validation failed" :=
  ⟨by decide,
   (validateOutput_spec [("client_name", JValue.dict
      [("answer", JValue.s "x"), ("details", JValue.s ""), ("source", JValue.s "y")])]).2
     (by decide)⟩

/-- A window of failing attempts drives the retry loop into the raised
error (or, for a zero attempt count, the implicit `None`). -/
theorem retryLoop_all_fail (oracle : Nat → Option String) :
    ∀ n attempt, (∀ k, attempt ≤ k → k < attempt + n → callFails (oracle k) = true) →
      retryLoop oracle attempt n = Except.error "All API call attempts failed"
      ∨ retryLoop oracle attempt n = Except.ok none := by
  intro n
  induction n with
  | zero => intro attempt _; right; rfl
  | succ m ih =>
    intro attempt h
    have hf : callFails (oracle attempt) = true := h attempt le_rfl (by omega)
    by_cases hm : m = 0
    · subst hm
      left
      simp [retryLoop, hf]
    · have := ih (attempt + 1) (fun k hk1 hk2 => h k (by omega) (by omega))
      simpa [retryLoop, hf, hm] using this

/-- Behaviour of `extract_parameter` under total API failure: the caught error path. -/
theorem extractParameter_all_fail (n : Nat) (prc : String → String × String)
    (parameter prompt : String) (pageNumbers : List Nat) (oracle : Nat → Option String)
    (hfail : ∀ k < n, callFails (oracle k) = true) :
    (extractParameter n prc parameter prompt pageNumbers oracle).extractedValue = "NOT_FOUND"
    ∧ (extractParameter n prc parameter prompt pageNumbers oracle).confidence = 0
    ∧ (extractParameter n prc parameter prompt pageNumbers oracle).parameter = parameter := by
  unfold extractParameter
  cases hws : prompt.data.all Char.isWhitespace with
  | true => simp [hws, errorResponse]
  | false =>
    have hcall := retryLoop_all_fail oracle n 0 (fun k _ hk => hfail k (by omega))
    unfold makeApiCallWithRetry
    rcases hcall with h | h <;> rw [h] <;> simp [errorResponse, calculateLLMConfidence]

/-- The loop `extract_batch_parameters` is the per-entry extraction mapped over the
prompt list. -/
theorem extractBatchParameters_eq_map (n : Nat) (prc : String → String × String)
    (oracle : String → Nat → Option String) (l : List PromptData) :
    extractBatchParameters n prc oracle l =
      l.map (fun pd =>
        match pd.prompt with
        | none => ⟨pd.parameter, "NOT_FOUND", "", 0, 0, []⟩
        | some prompt =>
          extractParameter n prc pd.parameter prompt pd.pageNumbers (oracle prompt)) := by
  induction l with
  | nil => rfl
  | cons pd rest ih => simp [extractBatchParameters, ih]

/-- C4: when every attempt of a prompt's API call fails, the batch still
produces one response per prompt (no exception escapes), and the failing
parameter's response carries `NOT_FOUND` with confidence 0. -/
theorem exhausted_retries_not_found (retryAttempts : Nat)
    (processResponse : String → String × String)
    (oracle : String → Nat → Option String)
    (prompts : List PromptData) (i : Nat) (pd : PromptData) (pr : String)
    (hget : prompts[i]? = some pd) (hpr : pd.prompt = some pr)
    (hfail : ∀ k < retryAttempts, callFails (oracle pr k) = true) :
    (extractBatchParameters retryAttempts processResponse oracle prompts).length
        = prompts.length
    ∧ ∃ r, (extractBatchParameters retryAttempts processResponse oracle prompts)[i]?
          = some r
        ∧ r.extractedValue = "NOT_FOUND" ∧ r.confidence = 0
        ∧ r.parameter = pd.parameter := by
  rw [extractBatchParameters_eq_map]
  refine ⟨List.length_map _ _, ?_⟩
  have hx := extractParameter_all_fail retryAttempts processResponse pd.parameter pr
    pd.pageNumbers (oracle pr) hfail
  refine ⟨extractParameter retryAttempts processResponse pd.parameter pr
    pd.pageNumbers (oracle pr), ?_, hx.1, hx.2.1, hx.2.2⟩
  rw [List.getElem?_map, hget]
  simp [hpr]

/-- Witness for C4: one prompt whose every API attempt raises. -/
theorem exhausted_retries_not_found_witness :
    (extractBatchParameters 3 (fun t => (t, "")) (fun _ _ => none)
        [{ parameter := "client_name", prompt := some "find it", pageNumbers := [1] }]).length
      = 1
    ∧ ∃ r, (extractBatchParameters 3 (fun t => (t, "")) (fun _ _ => none)
          [{ parameter := "client_name", prompt := some "find it", pageNumbers := [1] }])[0]?
        = some r
      ∧ r.extractedValue = "NOT_FOUND" ∧ r.confidence = 0 ∧ r.parameter = "client_name" :=
  exhausted_retries_not_found 3 (fun t => (t, "")) (fun _ _ => none)
    [{ parameter := "client_name", prompt := some "find it", pageNumbers := [1] }]
    0 { parameter := "client_name", prompt := some "find it", pageNumbers := [1] }
    "find it" rfl rfl (fun _ _ => rfl)

/-- The function `firstMaxBy` returns `none` only on the empty list. -/
theorem firstMaxBy_none_iff (l : List (PageType × Nat)) :
    firstMaxBy l = none ↔ l = [] := by
  cases l with
  | nil => simp [firstMaxBy]
  | cons x xs =>
    simp only [firstMaxBy]
    cases firstMaxBy xs with
    | none => simp
    | some y => by_cases h : x.2 < y.2 <;> simp [h]

/-- Python `max(..., key=...)` semantics of `firstMaxBy`: it returns an
entry of the list carrying the maximal score, and every entry before it
scores strictly less (ties go to the earliest entry). -/
theorem firstMaxBy_spec (l : List (PageType × Nat)) (hne : l ≠ []) :
    ∃ i a s, l[i]? = some (a, s) ∧ firstMaxBy l = some (a, s)
      ∧ (∀ (j : Nat) (e : PageType × Nat), j < i → l[j]? = some e → e.2 < s)
      ∧ (∀ e ∈ l, e.2 ≤ s) := by
  induction l with
  | nil => cases hne rfl
  | cons x xs ih =>
    cases hfm0 : firstMaxBy xs with
    | none =>
      have hxs : xs = [] := (firstMaxBy_none_iff xs).mp hfm0
      subst hxs
      refine ⟨0, x.1, x.2, by simp, by simp [firstMaxBy], ?_, ?_⟩
      · intro j e hj _; omega
      · intro e he; simp at he; simp [he]
    | some y =>
      have hxs : xs ≠ [] := by
        intro h
        rw [h] at hfm0
        simp [firstMaxBy] at hfm0
      obtain ⟨i, a, s, hgi, hfm, hlt, hub⟩ := ih hxs
      have hya : y = (a, s) := by
        have := hfm0.symm.trans hfm
        exact Option.some_injective _ this
      subst hya
      by_cases hx : x.2 < s
      · refine ⟨i + 1, a, s, by simpa using hgi, ?_, ?_, ?_⟩
        · simp [firstMaxBy, hfm0, hx]
        · intro j e hj hje
          cases j with
          | zero =>
            simp at hje
            subst hje
            exact hx
          | succ j' => exact hlt j' e (by omega) (by simpa using hje)
        · intro e he
          rcases List.mem_cons.mp he with h | h
          · subst h; omega
          · exact hub e h
      · refine ⟨0, x.1, x.2, by simp, ?_, ?_, ?_⟩
        · simp [firstMaxBy, hfm0, hx]
        · intro j e hj _; omega
        · intro e he
          rcases List.mem_cons.mp he with h | h
          · subst h; exact le_rfl
          · exact le_trans (hub e h) (by omega)

/-- The argmax facts behind `_classify_page_type` when some type scores
positively. -/
theorem classifyPageType_argmax (table : List (PageType × List String))
    (content : List Char) (e₀ : PageType × List String) (he₀ : e₀ ∈ table)
    (h₀ : 0 < typeScore e₀.2 content) :
    ∃ (i : Nat) (kws : List String),
      table[i]? = some (classifyPageType table content, kws)
      ∧ 0 < typeScore kws content
      ∧ (∀ (j : Nat) (e' : PageType × List String), j < i → table[j]? = some e' →
          typeScore e'.2 content < typeScore kws content)
      ∧ (∀ e' ∈ table, typeScore e'.2 content ≤ typeScore kws content) := by
  have hne : table.map (fun e => (e.1, typeScore e.2 content)) ≠ [] := by
    simp only [ne_eq, List.map_eq_nil_iff]
    intro h
    rw [h] at he₀
    cases he₀
  obtain ⟨i, a, s, hgi, hfm, hlt, hub⟩ :=
    firstMaxBy_spec (table.map (fun e => (e.1, typeScore e.2 content))) hne
  have hs : 0 < s :=
    lt_of_lt_of_le h₀ (hub _ (List.mem_map_of_mem (fun e => (e.1, typeScore e.2 content)) he₀))
  have hcl : classifyPageType table content = a := by
    unfold classifyPageType
    rw [hfm]
    simp [hs]
  rw [List.getElem?_map] at hgi
  cases hti : table[i]? with
  | none => rw [hti] at hgi; cases hgi
  | some e =>
    rw [hti] at hgi
    simp only [Option.map_some', Option.some.injEq, Prod.mk.injEq] at hgi
    obtain ⟨h1, h2⟩ := hgi
    refine ⟨i, e.2, ?_, ?_, ?_, ?_⟩
    · rw [hcl, ← h1, hti]
    · rw [h2]; exact hs
    · intro j e' hj hje
      have := hlt j (e'.1, typeScore e'.2 content) hj
        (by rw [List.getElem?_map, hje]; rfl)
      simpa [h2] using this
    · intro e' he'
      have := hub _ (List.mem_map_of_mem (fun e => (e.1, typeScore e.2 content)) he')
      simpa [h2] using this

/-- When every type's score is zero the classifier falls back to `other`. -/
theorem classifyPageType_eq_other_of_all_zero (table : List (PageType × List String))
    (content : List Char) (hall : ∀ e ∈ table, typeScore e.2 content = 0) :
    classifyPageType table content = PageType.other := by
  unfold classifyPageType
  cases hfm : firstMaxBy (table.map (fun e => (e.1, typeScore e.2 content))) with
  | none => rfl
  | some y =>
    have hne : table.map (fun e => (e.1, typeScore e.2 content)) ≠ [] := by
      intro h
      rw [h] at hfm
      cases hfm
    obtain ⟨i, a, s, hgi, hfm', _, _⟩ := firstMaxBy_spec _ hne
    have hy : y = (a, s) := Option.some_injective _ (hfm.symm.trans hfm')
    subst hy
    rw [List.getElem?_map] at hgi
    cases hti : table[i]? with
    | none => rw [hti] at hgi; cases hgi
    | some e =>
      rw [hti] at hgi
      simp only [Option.map_some', Option.some.injEq, Prod.mk.injEq] at hgi
      have hs0 : s = 0 := by
        rw [← hgi.2]
        exact hall e (List.getElem?_mem hti)
      simp [hs0]

/-- C2 (amended): the classifier's per-type score is one point per keyword
present in the text plus one per present keyword matched at a word
boundary (presence, not occurrence count); the page gets the first type
of the keyword table attaining the maximal score; and — for tables whose
`other` entries carry no scoring keywords — `OTHER` is assigned exactly
when every type scores zero. -/
theorem classifyPageType_characterisation (table : List (PageType × List String))
    (content : List Char)
    (hother : ∀ e ∈ table, e.1 = PageType.other → typeScore e.2 content = 0) :
    (classifyPageType table content = PageType.other ↔
      ∀ e ∈ table, typeScore e.2 content = 0)
    ∧ (∀ e ∈ table, 0 < typeScore e.2 content →
      ∃ (i : Nat) (kws : List String),
        table[i]? = some (classifyPageType table content, kws)
        ∧ (∀ (j : Nat) (e' : PageType × List String), j < i → table[j]? = some e' →
            typeScore e'.2 content < typeScore kws content)
        ∧ (∀ e' ∈ table, typeScore e'.2 content ≤ typeScore kws content)) := by
  constructor
  · constructor
    · intro hcl
      by_contra hex
      push_neg at hex
      obtain ⟨e₀, he₀, h₀⟩ := hex
      obtain ⟨i, kws, hti, hpos, _, _⟩ :=
        classifyPageType_argmax table content e₀ he₀ (Nat.pos_of_ne_zero h₀)
      rw [hcl] at hti
      have : typeScore kws content = 0 :=
        hother _ (List.getElem?_mem hti) rfl
      omega
    · exact classifyPageType_eq_other_of_all_zero table content
  · intro e he h
    obtain ⟨i, kws, hti, _, hlt, hub⟩ :=
      classifyPageType_argmax table content e he h
    exact ⟨i, kws, hti, hlt, hub⟩

/-- Counterexample to C2 as stated: with the spec's occurrence-count
scoring the cover-page type (keyword `xy`, five occurrences) would win,
but the code scores presence only, so the financial type (two distinct
keywords) wins.  The classifier is not the spec-side classifier. -/
theorem classifyPageType_counterexample :
    classifyPageType
        [(PageType.coverPage, ["xy"]), (PageType.financialInfo, ["q1", "q2"])]
        "xy xy xy xy xy q1 q2".data
      = PageType.financialInfo
    ∧ classifyPageTypeSpec
        [(PageType.coverPage, ["xy"]), (PageType.financialInfo, ["q1", "q2"])]
        "xy xy xy xy xy q1 q2".data
      = PageType.coverPage
    ∧ typeScoreSpec ["xy"] "xy xy xy xy xy q1 q2".data = 6
    ∧ typeScore ["xy"] "xy xy xy xy xy q1 q2".data = 2 := by
  refine ⟨by decide, by decide, by decide, by decide⟩

/-- Witness for the amended C2 at a concrete table and page text. -/
theorem classifyPageType_characterisation_witness :
    (∀ e ∈ [(PageType.coverPage, ["xy"]), (PageType.financialInfo, ["q1", "q2"])],
      e.1 = PageType.other → typeScore e.2 "xy q1".data = 0)
    ∧ ((classifyPageType
          [(PageType.coverPage, ["xy"]), (PageType.financialInfo, ["q1", "q2"])]
          "xy q1".data = PageType.other ↔
        ∀ e ∈ [(PageType.coverPage, ["xy"]), (PageType.financialInfo, ["q1", "q2"])],
          typeScore e.2 "xy q1".data = 0)
      ∧ (∀ e ∈ [(PageType.coverPage, ["xy"]), (PageType.financialInfo, ["q1", "q2"])],
          0 < typeScore e.2 "xy q1".data →
        ∃ (i : Nat) (kws : List String),
          [(PageType.coverPage, ["xy"]), (PageType.financialInfo, ["q1", "q2"])][i]?
              = some (classifyPageType
                  [(PageType.coverPage, ["xy"]), (PageType.financialInfo, ["q1", "q2"])]
                  "xy q1".data, kws)
          ∧ (∀ (j : Nat) (e' : PageType × List String), j < i →
              [(PageType.coverPage, ["xy"]), (PageType.financialInfo, ["q1", "q2"])][j]?
                = some e' →
              typeScore e'.2 "xy q1".data < typeScore kws "xy q1".data)
          ∧ (∀ e' ∈ [(PageType.coverPage, ["xy"]), (PageType.financialInfo, ["q1", "q2"])],
              typeScore e'.2 "xy q1".data ≤ typeScore kws "xy q1".data))) :=
  ⟨by decide,
   classifyPageType_characterisation
     [(PageType.coverPage, ["xy"]), (PageType.financialInfo, ["q1", "q2"])]
     "xy q1".data (by decide)⟩

/-! ## Keyword-search machinery -/

theorem keywordScore_step_nonneg (acc : ℚ) (hacc : 0 ≤ acc) (kw : String)
    (contentLower : List Char) :
    0 ≤ acc + (countOccur (lowerChars kw.data) contentLower : ℚ)
      + 2 * (countBoundary (lowerChars kw.data) contentLower : ℚ)
      + (if hasHebrewChar kw.data
          then (countOccur (lowerChars kw.data) contentLower : ℚ) * (3 / 2) else 0) := by
  have h1 : (0 : ℚ) ≤ (countOccur (lowerChars kw.data) contentLower : ℚ) := by positivity
  have h2 : (0 : ℚ) ≤ (countBoundary (lowerChars kw.data) contentLower : ℚ) := by positivity
  have h3 : (0 : ℚ) ≤ (if hasHebrewChar kw.data
      then (countOccur (lowerChars kw.data) contentLower : ℚ) * (3 / 2) else 0) := by
    split_ifs
    · positivity
    · exact le_rfl
  linarith

theorem keywordScore_foldl_nonneg (kws : List String) (contentLower : List Char) :
    ∀ acc : ℚ, 0 ≤ acc →
      0 ≤ kws.foldl
        (fun acc kw =>
          acc + (countOccur (lowerChars kw.data) contentLower : ℚ)
            + 2 * (countBoundary (lowerChars kw.data) contentLower : ℚ)
            + (if hasHebrewChar kw.data
                then (countOccur (lowerChars kw.data) contentLower : ℚ) * (3 / 2) else 0))
        acc := by
  induction kws with
  | nil => intro acc hacc; exact hacc
  | cons kw rest ih =>
    intro acc hacc
    exact ih _ (keywordScore_step_nonneg acc hacc kw contentLower)

theorem keywordScore_nonneg (kws : List String) (contentLower : List Char) :
    0 ≤ keywordScore kws contentLower :=
  keywordScore_foldl_nonneg kws contentLower 0 le_rfl

/-- Membership in the scored candidate list. -/
theorem mem_scoredPages (pages : List DocumentPage) (kws : List String)
    (q : DocumentPage) (s : ℚ) :
    (q, s) ∈ scoredPages pages kws ↔
      q ∈ pages ∧ q.wordCount ≠ 0
        ∧ s = keywordScore kws (lowerChars q.content.data) ∧ 0 < s := by
  unfold scoredPages
  rw [List.mem_filterMap]
  constructor
  · rintro ⟨a, ha, hfa⟩
    by_cases h0 : a.wordCount = 0
    · rw [if_pos h0] at hfa; cases hfa
    · rw [if_neg h0] at hfa
      by_cases hs : 0 < keywordScore kws (lowerChars a.content.data)
      · rw [if_pos hs] at hfa
        have h := Option.some_injective _ hfa
        have h1 : a = q := congrArg Prod.fst h
        have h2 : keywordScore kws (lowerChars a.content.data) = s := congrArg Prod.snd h
        subst h1
        exact ⟨ha, h0, h2.symm, h2 ▸ hs⟩
      · rw [if_neg hs] at hfa; cases hfa
  · rintro ⟨hq, h0, rfl, hs⟩
    exact ⟨q, hq, by rw [if_neg h0, if_pos hs]⟩

/-- The scored pages are a subsequence of the input pages. -/
theorem scoredPages_map_fst_sublist (pages : List DocumentPage) (kws : List String) :
    ((scoredPages pages kws).map Prod.fst).Sublist pages := by
  induction pages with
  | nil => simp [scoredPages]
  | cons p rest ih =>
    unfold scoredPages at ih ⊢
    rw [List.filterMap_cons]
    by_cases h0 : p.wordCount = 0
    · rw [if_pos h0]
      exact ih.cons p
    · rw [if_neg h0]
      by_cases hs : 0 < keywordScore kws (lowerChars p.content.data)
      · rw [if_pos hs]
        simpa using ih.cons₂ p
      · rw [if_neg hs]
        exact ih.cons p

instance : IsTotal (DocumentPage × ℚ) (fun a b => b.2 ≤ a.2) :=
  ⟨fun a b => (le_total b.2 a.2)⟩

instance : IsTrans (DocumentPage × ℚ) (fun a b => b.2 ≤ a.2) :=
  ⟨fun _ _ _ hab hbc => le_trans hbc hab⟩

instance : IsTotal DocumentPage (fun a b => a.pageNumber ≤ b.pageNumber) :=
  ⟨fun a b => (le_total a.pageNumber b.pageNumber)⟩

instance : IsTrans DocumentPage (fun a b => a.pageNumber ≤ b.pageNumber) :=
  ⟨fun _ _ _ hab hbc => le_trans hab hbc⟩

theorem sortScoredDesc_perm (l : List (DocumentPage × ℚ)) :
    (sortScoredDesc l).Perm l :=
  List.perm_insertionSort _ l

theorem sortScoredDesc_sorted (l : List (DocumentPage × ℚ)) :
    (sortScoredDesc l).Pairwise (fun a b => b.2 ≤ a.2) :=
  List.sorted_insertionSort _ l

theorem sortByPageNumber_perm (l : List DocumentPage) :
    (sortByPageNumber l).Perm l :=
  List.perm_insertionSort _ l

theorem sortByPageNumber_sorted (l : List DocumentPage) :
    (sortByPageNumber l).Pairwise (fun a b => a.pageNumber ≤ b.pageNumber) :=
  List.sorted_insertionSort _ l

theorem sortByWordCountDesc_perm (l : List DocumentPage) :
    (sortByWordCountDesc l).Perm l :=
  List.perm_insertionSort _ l

/-- The diversity loop appends, after the prior selection, a subsequence of
the candidate pages, each appended page clearing the threshold. -/
theorem diversitySelect_spec (thr : ℚ) (maxPages : Nat) :
    ∀ (l : List (DocumentPage × ℚ)) (sel : List DocumentPage) (used : List Nat),
      ∃ t, diversitySelect thr maxPages l sel used = sel ++ t
        ∧ t.Sublist (l.map Prod.fst)
        ∧ ∀ q ∈ t, ∃ s, (q, s) ∈ l ∧ thr ≤ s := by
  intro l
  induction l with
  | nil => intro sel used; exact ⟨[], by simp [diversitySelect], by simp, by simp⟩
  | cons x rest ih =>
    intro sel used
    obtain ⟨p, s⟩ := x
    unfold diversitySelect
    by_cases hc : thr ≤ s ∧ sel.length < maxPages
        ∧ (p.pageNumber / 10 ∉ used ∨ sel.length < maxPages / 2)
    · rw [if_pos hc]
      obtain ⟨t, ht, hsub, hthr⟩ := ih (sel ++ [p]) (p.pageNumber / 10 :: used)
      refine ⟨p :: t, by rw [ht]; simp, by simpa using hsub.cons₂ p, ?_⟩
      intro q hq
      rcases List.mem_cons.mp hq with h | h
      · exact ⟨s, by simp [h], hc.1⟩
      · obtain ⟨s', hs', hthr'⟩ := hthr q h
        exact ⟨s', List.mem_cons_of_mem _ hs', hthr'⟩
    · rw [if_neg hc]
      obtain ⟨t, ht, hsub, hthr⟩ := ih sel used
      refine ⟨t, ht, hsub.cons _, ?_⟩
      intro q hq
      obtain ⟨s', hs', hthr'⟩ := hthr q hq
      exact ⟨s', List.mem_cons_of_mem _ hs', hthr'⟩

/-- Structural facts about `_search_pages_by_keywords`: the result is
bounded by `max_pages`, is a subsequence of the score-sorted candidates,
and every kept page clears `max(1.0, 0.3 * top_score)`. -/
theorem searchPages_facts (pages : List DocumentPage) (kws : List String) (m : Nat) :
    (searchPagesByKeywords pages kws m).length ≤ m
    ∧ (searchPagesByKeywords pages kws m).Sublist
        ((sortScoredDesc (scoredPages pages kws)).map Prod.fst)
    ∧ ∀ p ∈ searchPagesByKeywords pages kws m,
        ∃ s, (p, s) ∈ scoredPages pages kws
          ∧ max 1 (topKeywordScore pages kws * (3 / 10)) ≤ s := by
  unfold searchPagesByKeywords
  cases hs : sortScoredDesc (scoredPages pages kws) with
  | nil => simp
  | cons top rest =>
    dsimp only
    obtain ⟨t, ht, hsub, hthr⟩ :=
      diversitySelect_spec (max 1 (top.2 * (3 / 10))) m (top :: rest) [] []
    rw [ht]
    simp only [List.nil_append]
    refine ⟨?_, ?_, ?_⟩
    · rw [List.length_take]; exact min_le_left _ _
    · exact (List.take_sublist m t).trans hsub
    · intro p hp
      obtain ⟨s, hmem, hle⟩ := hthr p ((List.take_sublist m t).subset hp)
      refine ⟨s, ((sortScoredDesc_perm (scoredPages pages kws)).mem_iff.mp
        (by rw [hs]; exact hmem)), ?_⟩
      have htop : topKeywordScore pages kws = top.2 := by
        unfold topKeywordScore
        rw [hs]
      rw [htop]
      exact hle

/-- Page-level membership facts for the keyword search. -/
theorem mem_searchPages (pages : List DocumentPage) (kws : List String) (m : Nat)
    (p : DocumentPage) (hp : p ∈ searchPagesByKeywords pages kws m) :
    p ∈ pages ∧ p.wordCount ≠ 0
    ∧ max 1 (topKeywordScore pages kws * (3 / 10))
        ≤ keywordScore kws (lowerChars p.content.data) := by
  obtain ⟨s, hmem, hle⟩ := (searchPages_facts pages kws m).2.2 p hp
  rw [mem_scoredPages] at hmem
  obtain ⟨h1, h2, rfl, _⟩ := hmem
  exact ⟨h1, h2, hle⟩

/-- The keyword search preserves distinctness of page numbers. -/
theorem searchPages_nodup (pages : List DocumentPage) (kws : List String) (m : Nat)
    (hnd : (pageNums pages).Nodup) :
    (pageNums (searchPagesByKeywords pages kws m)).Nodup := by
  have h1 : (pageNums ((scoredPages pages kws).map Prod.fst)).Nodup := by
    unfold pageNums
    exact ((scoredPages_map_fst_sublist pages kws).map DocumentPage.pageNumber).nodup hnd
  have h2 : (pageNums ((sortScoredDesc (scoredPages pages kws)).map Prod.fst)).Nodup := by
    unfold pageNums at h1 ⊢
    refine (List.Perm.nodup ?_ h1)
    exact ((sortScoredDesc_perm (scoredPages pages kws)).map Prod.fst).map _ |>.symm
  unfold pageNums at h2 ⊢
  exact (((searchPages_facts pages kws m).2.1).map DocumentPage.pageNumber).nodup h2

/-- A page list whose scored candidates are empty produces an empty search
result. -/
theorem searchPages_eq_nil (pages : List DocumentPage) (kws : List String) (m : Nat)
    (h : scoredPages pages kws = []) : searchPagesByKeywords pages kws m = [] := by
  unfold searchPagesByKeywords
  rw [h]
  rfl

/-- Pages that never hit any keyword (and empty pages) are never scored. -/
theorem scoredPages_eq_nil (pages : List DocumentPage) (kws : List String)
    (h : ∀ p ∈ pages, p.wordCount = 0
        ∨ keywordScore kws (lowerChars p.content.data) = 0) :
    scoredPages pages kws = [] := by
  unfold scoredPages
  rw [List.filterMap_eq_nil_iff]
  intro p hp
  rcases h p hp with h0 | h0
  · rw [if_pos h0]
  · by_cases hwc : p.wordCount = 0
    · rw [if_pos hwc]
    · rw [if_neg hwc, if_neg (by rw [h0]; exact lt_irrefl 0)]

/-- Zero keyword counts make a keyword's score contribution vanish. -/
theorem keywordScore_eq_zero (kws : List String) (contentLower : List Char)
    (h : ∀ kw ∈ kws, countOccur (lowerChars kw.data) contentLower = 0
        ∧ countBoundary (lowerChars kw.data) contentLower = 0) :
    keywordScore kws contentLower = 0 := by
  unfold keywordScore
  induction kws with
  | nil => rfl
  | cons kw rest ih =>
    have hkw := h kw (List.mem_cons_self kw rest)
    have hstep : (0 : ℚ) + (countOccur (lowerChars kw.data) contentLower : ℚ)
        + 2 * (countBoundary (lowerChars kw.data) contentLower : ℚ)
        + (if hasHebrewChar kw.data
            then (countOccur (lowerChars kw.data) contentLower : ℚ) * (3 / 2) else 0) = 0 := by
      rw [hkw.1, hkw.2]
      split_ifs <;> norm_num
    rw [List.foldl_cons, hstep]
    exact ih (fun kw' h' => h kw' (List.mem_cons_of_mem kw h'))

theorem topKeywordScore_nonneg (pages : List DocumentPage) (kws : List String) :
    0 ≤ topKeywordScore pages kws := by
  unfold topKeywordScore
  cases hsort : sortScoredDesc (scoredPages pages kws) with
  | nil => exact le_rfl
  | cons top rest =>
    have hmem : top ∈ scoredPages pages kws :=
      (sortScoredDesc_perm (scoredPages pages kws)).mem_iff.mp
        (by rw [hsort]; exact List.mem_cons_self _ _)
    obtain ⟨p', s'⟩ := top
    exact le_of_lt ((mem_scoredPages pages kws p' s').mp hmem).2.2.2

/-- C6: the keyword search returns at most `max_pages` pages, every kept
page is an input page whose score reaches `max(1.0, 0.3 * top_score)`,
every page scoring below that threshold is discarded, and `top_score`
really is the maximal score of the non-empty pages. -/
theorem searchPages_selection_spec (pages : List DocumentPage) (kws : List String) (m : Nat) :
    (searchPagesByKeywords pages kws m).length ≤ m
    ∧ (∀ p ∈ searchPagesByKeywords pages kws m,
        p ∈ pages ∧ max 1 (topKeywordScore pages kws * (3 / 10))
          ≤ keywordScore kws (lowerChars p.content.data))
    ∧ (∀ p ∈ pages,
        keywordScore kws (lowerChars p.content.data)
            < max 1 (topKeywordScore pages kws * (3 / 10)) →
        p ∉ searchPagesByKeywords pages kws m)
    ∧ (∀ p ∈ pages, 0 < p.wordCount →
        keywordScore kws (lowerChars p.content.data) ≤ topKeywordScore pages kws) := by
  refine ⟨(searchPages_facts pages kws m).1, ?_, ?_, ?_⟩
  · intro p hp
    obtain ⟨h1, _, h3⟩ := mem_searchPages pages kws m p hp
    exact ⟨h1, h3⟩
  · intro p _ hlt hp
    obtain ⟨_, _, h3⟩ := mem_searchPages pages kws m p hp
    exact absurd h3 (not_le.mpr hlt)
  · intro p hp hwc
    by_cases hs : 0 < keywordScore kws (lowerChars p.content.data)
    · have hmem : (p, keywordScore kws (lowerChars p.content.data)) ∈ scoredPages pages kws :=
        (mem_scoredPages pages kws p _).mpr ⟨hp, by omega, rfl, hs⟩
      have hmem' := (sortScoredDesc_perm (scoredPages pages kws)).mem_iff.mpr hmem
      cases hsort : sortScoredDesc (scoredPages pages kws) with
      | nil => rw [hsort] at hmem'; cases hmem'
      | cons top rest =>
        unfold topKeywordScore
        rw [hsort] at hmem' ⊢
        have hpw := sortScoredDesc_sorted (scoredPages pages kws)
        rw [hsort] at hpw
        rcases List.mem_cons.mp hmem' with h | h
        · rw [← h]
        · exact (List.pairwise_cons.mp hpw).1 _ h
    · have h0 : keywordScore kws (lowerChars p.content.data) = 0 :=
        le_antisymm (not_lt.mp hs) (keywordScore_nonneg kws (lowerChars p.content.data))
      rw [h0]
      exact topKeywordScore_nonneg pages kws

/-- Witness for C6: a one-page, one-keyword search where the page is kept
and clears the threshold. -/
theorem searchPages_selection_spec_witness :
    (⟨1, "alpha beta", [], []⟩ : DocumentPage)
        ∈ searchPagesByKeywords [⟨1, "alpha beta", [], []⟩] ["alpha"] 3
    ∧ ((⟨1, "alpha beta", [], []⟩ : DocumentPage) ∈ [(⟨1, "alpha beta", [], []⟩ : DocumentPage)]
      ∧ max 1 (topKeywordScore [⟨1, "alpha beta", [], []⟩] ["alpha"] * (3 / 10))
          ≤ keywordScore ["alpha"]
              (lowerChars (⟨1, "alpha beta", [], []⟩ : DocumentPage).content.data)) := by
  have hks : keywordScore ["alpha"]
      (lowerChars (⟨1, "alpha beta", [], []⟩ : DocumentPage).content.data) = 3 := by
    unfold keywordScore
    rw [List.foldl_cons, List.foldl_nil]
    dsimp only
    rw [show countOccur (lowerChars "alpha".data)
        (lowerChars (⟨1, "alpha beta", [], []⟩ : DocumentPage).content.data) = 1 by decide,
      show countBoundary (lowerChars "alpha".data)
        (lowerChars (⟨1, "alpha beta", [], []⟩ : DocumentPage).content.data) = 1 by decide,
      show hasHebrewChar "alpha".data = false by decide]
    norm_num
  have hsp : scoredPages [⟨1, "alpha beta", [], []⟩] ["alpha"]
      = [((⟨1, "alpha beta", [], []⟩ : DocumentPage), 3)] := by
    unfold scoredPages
    rw [List.filterMap_cons_some, List.filterMap_nil]
    dsimp only
    rw [if_neg (show ¬ (⟨1, "alpha beta", [], []⟩ : DocumentPage).wordCount = 0 by decide),
      hks]
    rw [if_pos (by norm_num)]
  have hsort : sortScoredDesc [((⟨1, "alpha beta", [], []⟩ : DocumentPage), 3)]
      = [((⟨1, "alpha beta", [], []⟩ : DocumentPage), 3)] := rfl
  have hsearch : searchPagesByKeywords [⟨1, "alpha beta", [], []⟩] ["alpha"] 3
      = [⟨1, "alpha beta", [], []⟩] := by
    unfold searchPagesByKeywords
    rw [hsp, hsort]
    dsimp only
    unfold diversitySelect
    rw [if_pos ⟨by norm_num, by norm_num, Or.inl (by simp)⟩]
    rfl
  refine ⟨by rw [hsearch]; exact List.mem_cons_self _ _, ?_⟩
  exact (searchPages_selection_spec [⟨1, "alpha beta", [], []⟩] ["alpha"] 3).2.1
    ⟨1, "alpha beta", [], []⟩ (by rw [hsearch]; exact List.mem_cons_self _ _)

/-! ## Fallback and deduplication machinery -/

theorem dedupByPageNumber_sublist :
    ∀ (l : List DocumentPage) (seen : List Nat),
      (dedupByPageNumber l seen).Sublist l := by
  intro l
  induction l with
  | nil => intro seen; simp [dedupByPageNumber]
  | cons p rest ih =>
    intro seen
    unfold dedupByPageNumber
    by_cases h : p.pageNumber ∈ seen
    · rw [if_pos h]; exact (ih _).cons p
    · rw [if_neg h]; exact (ih _).cons₂ p

theorem dedupByPageNumber_nodup :
    ∀ (l : List DocumentPage) (seen : List Nat),
      (pageNums (dedupByPageNumber l seen)).Nodup
      ∧ ∀ q ∈ dedupByPageNumber l seen, q.pageNumber ∉ seen := by
  intro l
  induction l with
  | nil =>
    intro seen
    exact ⟨by simp [dedupByPageNumber, pageNums], by simp [dedupByPageNumber]⟩
  | cons p rest ih =>
    intro seen
    unfold dedupByPageNumber
    by_cases h : p.pageNumber ∈ seen
    · rw [if_pos h]; exact ih seen
    · rw [if_neg h]
      obtain ⟨ihn, ihs⟩ := ih (p.pageNumber :: seen)
      refine ⟨?_, ?_⟩
      · unfold pageNums at ihn ⊢
        rw [List.map_cons, List.nodup_cons]
        refine ⟨?_, ihn⟩
        intro hmem
        rw [List.mem_map] at hmem
        obtain ⟨q, hq, hqe⟩ := hmem
        exact (ihs q hq) (by rw [hqe]; exact List.mem_cons_self _ _)
      · intro q hq
        rcases List.mem_cons.mp hq with h1 | h1
        · subst h1; exact h
        · exact fun hmem => (ihs q h1) (List.mem_cons_of_mem _ hmem)

theorem fallbackDiversitySelect_spec :
    ∀ (l sel : List DocumentPage) (used : List Nat),
      ∃ t, fallbackDiversitySelect l sel used = sel ++ t ∧ t.Sublist l := by
  intro l
  induction l with
  | nil => intro sel used; exact ⟨[], by simp [fallbackDiversitySelect], by simp⟩
  | cons p rest ih =>
    intro sel used
    unfold fallbackDiversitySelect
    by_cases hc : p.pageNumber / 20 ∉ used ∧ sel.length < 3
    · rw [if_pos hc]
      obtain ⟨t, ht, hsub⟩ := ih (sel ++ [p]) (p.pageNumber / 20 :: used)
      exact ⟨p :: t, by rw [ht]; simp, hsub.cons₂ p⟩
    · rw [if_neg hc]
      obtain ⟨t, ht, hsub⟩ := ih sel used
      exact ⟨t, ht, hsub.cons p⟩

theorem fallbackContentPages_sublist (pages : List DocumentPage) :
    (fallbackContentPages pages).Sublist pages := by
  unfold fallbackContentPages
  dsimp only
  split
  · exact List.filter_sublist pages
  · exact List.filter_sublist pages

theorem fallbackContentPages_wordCount (pages : List DocumentPage)
    (p : DocumentPage) (hp : p ∈ fallbackContentPages pages) : 50 < p.wordCount := by
  unfold fallbackContentPages at hp
  dsimp only at hp
  split at hp
  · rw [List.mem_filter] at hp
    exact of_decide_eq_true hp.2
  · rw [List.mem_filter] at hp
    have := of_decide_eq_true hp.2
    omega

theorem fallbackContentPages_ne_nil (pages : List DocumentPage)
    (hrich : ∃ q ∈ pages, 50 < q.wordCount) :
    (fallbackContentPages pages).isEmpty = false := by
  obtain ⟨q, hq, hwc⟩ := hrich
  unfold fallbackContentPages
  dsimp only
  split
  · have : q ∈ pages.filter (fun p => 50 < p.wordCount) :=
      List.mem_filter.mpr ⟨hq, decide_eq_true hwc⟩
    cases hl : pages.filter (fun p => decide (50 < p.wordCount)) with
    | nil => rw [hl] at this; cases this
    | cons a l => rfl
  · rename_i h
    simpa using h

theorem fallbackSelect_facts (cp : List DocumentPage)
    (hnd : (pageNums cp).Nodup) :
    (∀ p ∈ fallbackSelect cp, p ∈ cp)
    ∧ (fallbackSelect cp).length ≤ 3
    ∧ (pageNums (fallbackSelect cp)).Nodup := by
  unfold fallbackSelect
  dsimp only
  obtain ⟨t, ht, hsub⟩ := fallbackDiversitySelect_spec (sortByWordCountDesc cp) [] []
  rw [ht]
  simp only [List.nil_append]
  have hperm := sortByWordCountDesc_perm cp
  have hndS : (pageNums (sortByWordCountDesc cp)).Nodup := by
    unfold pageNums
    exact ((hperm.map DocumentPage.pageNumber).symm).nodup hnd
  have hmemS : ∀ p ∈ sortByWordCountDesc cp, p ∈ cp := fun p hp => hperm.mem_iff.mp hp
  split
  · rename_i h3
    refine ⟨?_, ?_, ?_⟩
    · intro p hp
      have hp' := (List.take_sublist _ _).subset hp
      rcases List.mem_append.mp hp' with h | h
      · exact hmemS p (hsub.subset h)
      · exact hmemS p ((List.filter_sublist _).subset ((List.take_sublist _ _).subset h))
    · rw [List.length_take]; exact min_le_left _ _
    · have hbig : (pageNums (t ++ (List.filter (fun p => decide (p ∉ t))
          (sortByWordCountDesc cp)).take (3 - t.length))).Nodup := by
        unfold pageNums
        rw [List.map_append, List.nodup_append]
        refine ⟨(hsub.map _).nodup hndS,
          (((List.take_sublist _ _).trans (List.filter_sublist _)).map _).nodup hndS, ?_⟩
        intro a ha hb
        rw [List.mem_map] at ha hb
        obtain ⟨q1, hq1, hqe1⟩ := ha
        obtain ⟨q2, hq2, hqe2⟩ := hb
        have hq2' := (List.take_sublist _ _).subset hq2
        rw [List.mem_filter] at hq2'
        have heq : q1 = q2 := by
          refine List.inj_on_of_nodup_map (l := sortByWordCountDesc cp)
            (f := DocumentPage.pageNumber) hndS (hsub.subset hq1) hq2'.1 ?_
          rw [hqe1, hqe2]
        have : q2 ∉ t := of_decide_eq_true hq2'.2
        exact this (heq ▸ hq1)
      unfold pageNums at hbig ⊢
      exact ((List.take_sublist _ _).map _).nodup hbig
  · refine ⟨?_, ?_, ?_⟩
    · intro p hp
      exact hmemS p (hsub.subset ((List.take_sublist _ _).subset hp))
    · rw [List.length_take]; exact min_le_left _ _
    · unfold pageNums
      exact (((List.take_sublist _ _).trans hsub).map _).nodup hndS

/-- Structural facts about `_use_fallback_strategy`. -/
theorem fallback_facts (cfg : MatcherConfig) (param : String)
    (pages : List DocumentPage) (hnd : (pageNums pages).Nodup) :
    (∀ p ∈ useFallbackStrategy cfg param pages, p ∈ pages)
    ∧ (useFallbackStrategy cfg param pages).length ≤ 3
    ∧ (pageNums (useFallbackStrategy cfg param pages)).Nodup := by
  unfold useFallbackStrategy
  dsimp only
  split
  · exact ⟨fun p hp => (mem_searchPages _ _ _ p hp).1,
      (searchPages_facts _ _ _).1,
      searchPages_nodup _ _ _ hnd⟩
  · split
    · refine ⟨fun p hp => (List.take_sublist _ _).subset hp, ?_, ?_⟩
      · rw [List.length_take]; exact min_le_left _ _
      · unfold pageNums
        exact ((List.take_sublist _ _).map _).nodup hnd
    · have hndc : (pageNums (fallbackContentPages pages)).Nodup := by
        unfold pageNums
        exact ((fallbackContentPages_sublist pages).map _).nodup hnd
      obtain ⟨h1, h2, h3⟩ := fallbackSelect_facts (fallbackContentPages pages) hndc
      exact ⟨fun p hp => (fallbackContentPages_sublist pages).subset (h1 p hp), h2, h3⟩

/-- With at least one content-rich input page, the fallback never returns
an empty page. -/
theorem fallback_wordCount_pos (cfg : MatcherConfig) (param : String)
    (pages : List DocumentPage) (hrich : ∃ q ∈ pages, 50 < q.wordCount) :
    ∀ p ∈ useFallbackStrategy cfg param pages, p.wordCount ≠ 0 := by
  unfold useFallbackStrategy
  dsimp only
  split
  · exact fun p hp => (mem_searchPages _ _ _ p hp).2.1
  · rw [fallbackContentPages_ne_nil pages hrich]
    split
    · rename_i h
      cases h
    · intro p hp
      have hndc := fallbackSelect_facts (fallbackContentPages pages)
      intro h0
      have hcp : p ∈ fallbackContentPages pages := by
        obtain ⟨t, ht, hsub⟩ := fallbackDiversitySelect_spec
          (sortByWordCountDesc (fallbackContentPages pages)) [] []
        unfold fallbackSelect at hp
        dsimp only at hp
        rw [ht] at hp
        simp only [List.nil_append] at hp
        have hperm := sortByWordCountDesc_perm (fallbackContentPages pages)
        have hp' := (List.take_sublist _ _).subset hp
        by_cases hc : t.length < 3
        · rw [if_pos hc] at hp'
          rcases List.mem_append.mp hp' with h | h
          · exact hperm.mem_iff.mp (hsub.subset h)
          · exact hperm.mem_iff.mp
              ((List.filter_sublist _).subset ((List.take_sublist _ _).subset h))
        · rw [if_neg hc] at hp'
          exact hperm.mem_iff.mp (hsub.subset hp')
      have := fallbackContentPages_wordCount pages p hcp
      omega

/-- Bundle of the search facts used by the matcher-level proofs. -/
theorem searchFacts_bundle (pages : List DocumentPage) (kws : List String) (m : Nat)
    (hnd : (pageNums pages).Nodup) :
    (∀ p ∈ searchPagesByKeywords pages kws m, p ∈ pages)
    ∧ (searchPagesByKeywords pages kws m).length ≤ m
    ∧ (pageNums (searchPagesByKeywords pages kws m)).Nodup
    ∧ (∀ p ∈ searchPagesByKeywords pages kws m, p.wordCount ≠ 0) :=
  ⟨fun p hp => (mem_searchPages _ _ _ p hp).1, (searchPages_facts _ _ _).1,
   searchPages_nodup _ _ _ hnd, fun p hp => (mem_searchPages _ _ _ p hp).2.1⟩

/-- Structural facts about `_find_pages_by_content_analysis`: across all
strategies the result stays inside the input, within the per-strategy
page caps (at most 4), with distinct page numbers and no empty page. -/
theorem contentAnalysis_facts (cfg : MatcherConfig) (param : String)
    (pages : List DocumentPage) (hnd : (pageNums pages).Nodup) :
    (∀ p ∈ findPagesByContentAnalysis cfg param pages, p ∈ pages)
    ∧ (findPagesByContentAnalysis cfg param pages).length ≤ 4
    ∧ (pageNums (findPagesByContentAnalysis cfg param pages)).Nodup
    ∧ (∀ p ∈ findPagesByContentAnalysis cfg param pages, p.wordCount ≠ 0) := by
  have hnd15 : (pageNums (pages.take 15)).Nodup := by
    unfold pageNums
    exact ((List.take_sublist _ _).map _).nodup hnd
  have hnd3 : (pageNums (pages.take 3)).Nodup := by
    unfold pageNums
    exact ((List.take_sublist _ _).map _).nodup hnd
  have hndD : (pageNums (pages.drop (pages.length - 3))).Nodup := by
    unfold pageNums
    exact ((List.drop_sublist _ _).map _).nodup hnd
  unfold findPagesByContentAnalysis findClientNamePages findTenderNamePages
    findThresholdPages findPeriodPages findEvaluationPages findGuaranteePages
    findAuthorPages genericParameterSearch
  split_ifs
  · obtain ⟨a, b, c, d⟩ := searchFacts_bundle pages (paramKeywords cfg "client_name") 3 hnd
    exact ⟨a, b.trans (by omega), c, d⟩
  · dsimp only
    split
    · rename_i hempty
      obtain ⟨a, b, c, d⟩ := searchFacts_bundle pages (paramKeywords cfg "tender_name") 3 hnd
      exact ⟨a, b.trans (by omega), c, d⟩
    · obtain ⟨a, b, c, d⟩ :=
        searchFacts_bundle (pages.take 15) (paramKeywords cfg "tender_name") 2 hnd15
      exact ⟨fun p hp => (List.take_sublist _ _).subset (a p hp),
        b.trans (by omega), c, d⟩
  · obtain ⟨a, b, c, d⟩ :=
      searchFacts_bundle pages (paramKeywords cfg "threshold_conditions") 4 hnd
    exact ⟨a, b, c, d⟩
  · obtain ⟨a, b, c, d⟩ :=
      searchFacts_bundle pages (paramKeywords cfg "contract_period") 4 hnd
    exact ⟨a, b, c, d⟩
  · obtain ⟨a, b, c, d⟩ :=
      searchFacts_bundle pages (paramKeywords cfg "evaluation_method") 4 hnd
    exact ⟨a, b, c, d⟩
  · obtain ⟨a, b, c, d⟩ :=
      searchFacts_bundle pages (paramKeywords cfg "bid_guarantee") 4 hnd
    exact ⟨a, b, c, d⟩
  · dsimp only
    obtain ⟨a1, b1, c1, d1⟩ :=
      searchFacts_bundle (pages.take 3) (paramKeywords cfg "idea_author") 2 hnd3
    obtain ⟨a2, b2, c2, d2⟩ :=
      searchFacts_bundle (pages.drop (pages.length - 3)) (paramKeywords cfg "idea_author") 2 hndD
    refine ⟨?_, ?_, (dedupByPageNumber_nodup _ _).1, ?_⟩
    · intro p hp
      have hm := (dedupByPageNumber_sublist _ _).subset hp
      rcases List.mem_append.mp hm with h | h
      · exact (List.take_sublist _ _).subset (a1 p h)
      · exact (List.drop_sublist _ _).subset (a2 p h)
    · have hlen := (dedupByPageNumber_sublist
        (searchPagesByKeywords (pages.take 3) (paramKeywords cfg "idea_author") 2
          ++ searchPagesByKeywords (pages.drop (pages.length - 3))
              (paramKeywords cfg "idea_author") 2) []).length_le
      rw [List.length_append] at hlen
      omega
    · intro p hp
      have hm := (dedupByPageNumber_sublist _ _).subset hp
      rcases List.mem_append.mp hm with h | h
      · exact d1 p h
      · exact d2 p h
  · obtain ⟨a, b, c, d⟩ := searchFacts_bundle pages
      (generateParameterKeywords cfg.genericSearch param) 3 hnd
    exact ⟨a, b.trans (by omega), c, d⟩

/-- Sorting the final candidate list by page number preserves the
invariants and produces a strictly increasing page-number sequence. -/
theorem sorted_pages_props (pages c3 : List DocumentPage)
    (hsub : ∀ p ∈ c3, p ∈ pages) (hlen : c3.length ≤ 6)
    (hndc : (pageNums c3).Nodup) :
    (sortByPageNumber c3).Pairwise (fun a b => a.pageNumber < b.pageNumber)
    ∧ (∀ p ∈ sortByPageNumber c3, p ∈ pages)
    ∧ (sortByPageNumber c3).length ≤ 6 := by
  have hperm := sortByPageNumber_perm c3
  refine ⟨?_, fun p hp => hsub p (hperm.mem_iff.mp hp), by rw [hperm.length_eq]; exact hlen⟩
  have h1 := sortByPageNumber_sorted c3
  have h2 : (pageNums (sortByPageNumber c3)).Nodup := by
    unfold pageNums at hndc ⊢
    exact ((hperm.symm).map _).nodup hndc
  have h3 : (sortByPageNumber c3).Pairwise
      (fun a b => a.pageNumber ≠ b.pageNumber) := by
    unfold pageNums at h2
    exact List.pairwise_map.mp h2
  exact (h1.and h3).imp (fun h => lt_of_le_of_ne h.1 h.2)

/-- C5 (amended): for every parameter, configuration, and input pages with
pairwise-distinct page numbers, the returned `ParameterMatch.pages` is
strictly ascending by page number (sorted, no duplicates), drawn from the
input pages, and holds at most 6 pages — the hardcoded per-path caps
(keyword search 2 to 4, classifier-tag path up to 6, fallback 3), not the
configured max pages per prompt. -/
theorem matchSingleParameter_pages_invariant (cfg : MatcherConfig) (param : String)
    (pages : List DocumentPage) (hnd : (pageNums pages).Nodup) :
    ((matchSingleParameter cfg param pages).pages.Pairwise
      (fun a b => a.pageNumber < b.pageNumber))
    ∧ (∀ p ∈ (matchSingleParameter cfg param pages).pages, p ∈ pages)
    ∧ (matchSingleParameter cfg param pages).pages.length ≤ 6 := by
  have hsubt : (getPagesWithParameter pages param).Sublist pages :=
    List.filter_sublist pages
  have hndt : (pageNums (getPagesWithParameter pages param)).Nodup := by
    unfold pageNums
    exact (hsubt.map _).nodup hnd
  have htake4 :
      (sortByPageNumber ((sortByWordCountDesc (getPagesWithParameter pages param)).take 4)).Pairwise
          (fun a b => a.pageNumber < b.pageNumber)
      ∧ (∀ p ∈ sortByPageNumber
            ((sortByWordCountDesc (getPagesWithParameter pages param)).take 4), p ∈ pages)
      ∧ (sortByPageNumber
          ((sortByWordCountDesc (getPagesWithParameter pages param)).take 4)).length ≤ 6 := by
    have hperm := sortByWordCountDesc_perm (getPagesWithParameter pages param)
    refine sorted_pages_props pages _ ?_ ?_ ?_
    · intro p hp
      exact hsubt.subset (hperm.mem_iff.mp ((List.take_sublist _ _).subset hp))
    · rw [List.length_take]
      have := min_le_left 4 (sortByWordCountDesc (getPagesWithParameter pages param)).length
      omega
    · unfold pageNums
      refine ((List.take_sublist _ _).map _).nodup ?_
      exact ((hperm.symm).map _).nodup hndt
  have hfb :
      (sortByPageNumber (useFallbackStrategy cfg param pages)).Pairwise
          (fun a b => a.pageNumber < b.pageNumber)
      ∧ (∀ p ∈ sortByPageNumber (useFallbackStrategy cfg param pages), p ∈ pages)
      ∧ (sortByPageNumber (useFallbackStrategy cfg param pages)).length ≤ 6 := by
    obtain ⟨a, b, c⟩ := fallback_facts cfg param pages hnd
    exact sorted_pages_props pages _ a (b.trans (by omega)) c
  unfold matchSingleParameter
  split
  · simp
  · dsimp only
    split
    · -- classifier-tag stage ran
      split
      · -- more than 6 tagged pages: 4 most content-rich
        split
        · exact hfb
        · exact htake4
      · -- at most 6 tagged pages: kept as they are
        split
        · exact hfb
        · rename_i hlen hne
          refine sorted_pages_props pages _ (fun p hp => hsubt.subset hp) (by omega) ?_
          unfold pageNums
          exact (hsubt.map _).nodup hnd
    · -- content-analysis branch
      obtain ⟨a, b, c, _⟩ := contentAnalysis_facts cfg param pages hnd
      exact sorted_pages_props pages _ a (b.trans (by omega)) c

/-- On `samplePages`, the content analysis finds nothing for `foo`. -/
theorem samplePages_contentAnalysis_nil :
    findPagesByContentAnalysis sampleConfig "foo" samplePages = [] := by
  have hz : ∀ p ∈ samplePages, p.wordCount = 0
      ∨ keywordScore ["foo", "foo"] (lowerChars p.content.data) = 0 := by
    intro p hp
    right
    apply keywordScore_eq_zero
    intro kw hkw
    fin_cases hp <;> fin_cases hkw <;> exact ⟨by decide, by decide⟩
  have hgen : generateParameterKeywords sampleConfig.genericSearch "foo"
      = ["foo", "foo"] := by decide
  unfold findPagesByContentAnalysis
  rw [if_neg (by decide), if_neg (by decide), if_neg (by decide), if_neg (by decide),
    if_neg (by decide), if_neg (by decide), if_neg (by decide)]
  unfold genericParameterSearch
  rw [hgen]
  exact searchPages_eq_nil _ _ _ (scoredPages_eq_nil _ _ hz)

/-- Counterexample to C5 as stated: with five tagged pages (two sharing
page number 3) and no keyword hit, the classifier-tag path keeps all five
pages, exceeding the configured `max_pages_per_prompt` (3) and carrying a
duplicate page number. -/
theorem matchSingleParameter_counterexample :
    (matchSingleParameter sampleConfig "foo" samplePages).pages.length = 5
    ∧ ¬ (pageNums (matchSingleParameter sampleConfig "foo" samplePages).pages).Nodup
    ∧ sampleConfig.maxPagesPerPrompt = 3 := by
  have ht : getPagesWithParameter samplePages "foo" = samplePages := by decide
  have hm : (matchSingleParameter sampleConfig "foo" samplePages).pages
      = sortByPageNumber samplePages := by
    unfold matchSingleParameter
    rw [if_neg (show ¬ ("foo" : String) = "idea_author" by decide)]
    dsimp only
    rw [samplePages_contentAnalysis_nil, ht]
    rw [if_pos (show List.isEmpty ([] : List DocumentPage) = true from rfl)]
    rw [if_neg (show ¬ 6 < samplePages.length by decide)]
    rw [if_neg (show ¬ samplePages.isEmpty = true by decide)]
  refine ⟨?_, ?_, rfl⟩
  · rw [hm]; decide
  · rw [hm]; decide

/-- Witness for the amended C5 at a concrete distinct-page input. -/
theorem matchSingleParameter_pages_invariant_witness :
    (pageNums [(⟨1, "a b", [], []⟩ : DocumentPage), ⟨2, "c d", [], []⟩]).Nodup
    ∧ (((matchSingleParameter sampleConfig "foo"
          [⟨1, "a b", [], []⟩, ⟨2, "c d", [], []⟩]).pages.Pairwise
        (fun a b => a.pageNumber < b.pageNumber))
      ∧ (∀ p ∈ (matchSingleParameter sampleConfig "foo"
            [⟨1, "a b", [], []⟩, ⟨2, "c d", [], []⟩]).pages,
          p ∈ [(⟨1, "a b", [], []⟩ : DocumentPage), ⟨2, "c d", [], []⟩])
      ∧ (matchSingleParameter sampleConfig "foo"
          [⟨1, "a b", [], []⟩, ⟨2, "c d", [], []⟩]).pages.length ≤ 6) :=
  ⟨by decide,
   matchSingleParameter_pages_invariant sampleConfig "foo"
     [⟨1, "a b", [], []⟩, ⟨2, "c d", [], []⟩] (by decide)⟩

/-! ## Confidence aggregation -/

theorem mem_of_lookup_eq_some {α : Type} [BEq α] [LawfulBEq α] {β : Type}
    (a : α) (b : β) : ∀ (l : List (α × β)), l.lookup a = some b → (a, b) ∈ l := by
  intro l
  induction l with
  | nil => intro h; cases h
  | cons e rest ih =>
    obtain ⟨k, v⟩ := e
    intro h
    rw [List.lookup_cons] at h
    by_cases hk : a == k
    · rw [hk] at h
      simp only [Option.some.injEq] at h
      subst h
      have : a = k := eq_of_beq hk
      subst this
      exact List.mem_cons_self _ _
    · rw [Bool.eq_false_iff.mpr hk] at h
      exact List.mem_cons_of_mem _ (ih h)

theorem list_sum_nonneg_rat (l : List ℚ) (h : ∀ x ∈ l, 0 ≤ x) : 0 ≤ l.sum := by
  induction l with
  | nil => simp
  | cons x rest ih =>
    rw [List.sum_cons]
    have := h x (List.mem_cons_self _ _)
    have := ih (fun y hy => h y (List.mem_cons_of_mem _ hy))
    linarith

theorem list_sum_le_length_rat (l : List ℚ) (h : ∀ x ∈ l, x ≤ 1) :
    l.sum ≤ (l.length : ℚ) := by
  induction l with
  | nil => simp
  | cons x rest ih =>
    rw [List.sum_cons, List.length_cons]
    have := h x (List.mem_cons_self _ _)
    have := ih (fun y hy => h y (List.mem_cons_of_mem _ hy))
    push_cast
    linarith

/-- Evaluation of `_calculate_match_confidence` on a non-empty selection:
the factor list is `[page-count, content]`, extended by the mean parameter
confidence when present, and the result is its mean. -/
theorem calculateMatchConfidence_eval (param : String) (pages : List DocumentPage)
    (hpages : pages ≠ []) :
    calculateMatchConfidence param pages =
      (let pcs := pages.filterMap (fun p => p.paramConfidence.lookup param)
       let a : ℚ := min ((pages.length : ℚ) / 3) 1
       let b : ℚ := min
         ((((pages.map (fun p => (p.wordCount : ℚ))).sum) / (pages.length : ℚ)) / 500) 1
       if pcs = [] then (a + b) / 2
       else (a + b + pcs.sum / (pcs.length : ℚ)) / 3) := by
  have hne : pages.isEmpty = false := by
    cases pages with
    | nil => exact absurd rfl hpages
    | cons a l => rfl
  unfold calculateMatchConfidence
  rw [if_neg (by rw [hne]; exact Bool.false_ne_true)]
  dsimp only
  by_cases hpcs : pages.filterMap (fun p => p.paramConfidence.lookup param) = []
  · simp only [hpcs, List.isEmpty_nil, eq_self_iff_true, if_true, List.append_nil,
      List.isEmpty_cons, Bool.false_eq_true, if_false, List.sum_cons, List.sum_nil,
      List.length_cons, List.length_nil]
    norm_num
  · have hpe : (pages.filterMap (fun p => p.paramConfidence.lookup param)).isEmpty = false := by
      cases hl : pages.filterMap (fun p => p.paramConfidence.lookup param) with
      | nil => exact absurd hl hpcs
      | cons a l => rfl
    simp only [hpe, Bool.false_eq_true, if_false, if_neg hpcs, List.cons_append,
      List.nil_append, List.isEmpty_cons, List.sum_cons, List.sum_nil, List.length_cons,
      List.length_nil]
    norm_num
    ring

/-- C7: `_calculate_match_confidence` is 0 on an empty selection; on a
non-empty selection it is the unweighted mean of the page-count factor
`min(pages/3, 1)`, the content factor `min(avg_words/500, 1)` and — when
some selected page carries a classifier confidence entry for the
parameter — the mean of those entries; and (for classifier-produced
entries, which lie in `[0,1]`) the result lies in `[0,1]`. -/
theorem matchConfidence_formula (param : String) (pages : List DocumentPage)
    (hconf : ∀ p ∈ pages, ∀ e ∈ p.paramConfidence, 0 ≤ e.2 ∧ e.2 ≤ 1) :
    (pages = [] → calculateMatchConfidence param pages = 0)
    ∧ (pages ≠ [] →
        calculateMatchConfidence param pages =
          (let pcs := pages.filterMap (fun p => p.paramConfidence.lookup param)
           let a : ℚ := min ((pages.length : ℚ) / 3) 1
           let b : ℚ := min
             ((((pages.map (fun p => (p.wordCount : ℚ))).sum) / (pages.length : ℚ)) / 500) 1
           if pcs = [] then (a + b) / 2
           else (a + b + pcs.sum / (pcs.length : ℚ)) / 3))
    ∧ 0 ≤ calculateMatchConfidence param pages
    ∧ calculateMatchConfidence param pages ≤ 1 := by
  by_cases hpages : pages = []
  · subst hpages
    refine ⟨fun _ => rfl, fun h => absurd rfl h, ?_, ?_⟩ <;>
      simp [calculateMatchConfidence]
  · have hlen : 0 < (pages.length : ℚ) := by
      have : 0 < pages.length := List.length_pos.mpr hpages
      exact_mod_cast this
    have ha0 : (0 : ℚ) ≤ min ((pages.length : ℚ) / 3) 1 :=
      le_min (by positivity) (by norm_num)
    have ha1 : min ((pages.length : ℚ) / 3) 1 ≤ 1 := min_le_right _ _
    have hsumw : (0 : ℚ) ≤ (pages.map (fun p => (p.wordCount : ℚ))).sum :=
      list_sum_nonneg_rat _ (by
        intro x hx
        rw [List.mem_map] at hx
        obtain ⟨p, _, rfl⟩ := hx
        positivity)
    have hb0 : (0 : ℚ) ≤ min
        ((((pages.map (fun p => (p.wordCount : ℚ))).sum) / (pages.length : ℚ)) / 500) 1 :=
      le_min (by positivity) (by norm_num)
    have hb1 : min
        ((((pages.map (fun p => (p.wordCount : ℚ))).sum) / (pages.length : ℚ)) / 500) 1
        ≤ 1 := min_le_right _ _
    have hpcs : ∀ x ∈ pages.filterMap (fun p => p.paramConfidence.lookup param),
        0 ≤ x ∧ x ≤ 1 := by
      intro x hx
      rw [List.mem_filterMap] at hx
      obtain ⟨p, hp, hl⟩ := hx
      exact hconf p hp (param, x) (mem_of_lookup_eq_some param x _ hl)
    have heval := calculateMatchConfidence_eval param pages hpages
    refine ⟨fun h => absurd h hpages, fun _ => heval, ?_, ?_⟩ <;>
      rw [heval] <;>
      dsimp only <;>
      split
    · positivity
    · rename_i hne
      have hpl : 0 < ((pages.filterMap (fun p => p.paramConfidence.lookup param)).length : ℚ) := by
        have : 0 < (pages.filterMap (fun p => p.paramConfidence.lookup param)).length :=
          List.length_pos.mpr hne
        exact_mod_cast this
      have hc0 : (0 : ℚ) ≤ (pages.filterMap (fun p => p.paramConfidence.lookup param)).sum
          / ((pages.filterMap (fun p => p.paramConfidence.lookup param)).length : ℚ) :=
        div_nonneg (list_sum_nonneg_rat _ (fun x hx => (hpcs x hx).1)) (le_of_lt hpl)
      linarith
    · linarith
    · rename_i hne
      have hpl : 0 < ((pages.filterMap (fun p => p.paramConfidence.lookup param)).length : ℚ) := by
        have : 0 < (pages.filterMap (fun p => p.paramConfidence.lookup param)).length :=
          List.length_pos.mpr hne
        exact_mod_cast this
      have hc1 : (pages.filterMap (fun p => p.paramConfidence.lookup param)).sum
          / ((pages.filterMap (fun p => p.paramConfidence.lookup param)).length : ℚ) ≤ 1 := by
        rw [div_le_one hpl]
        exact list_sum_le_length_rat _ (fun x hx => (hpcs x hx).2)
      have hc0 : (0 : ℚ) ≤ (pages.filterMap (fun p => p.paramConfidence.lookup param)).sum
          / ((pages.filterMap (fun p => p.paramConfidence.lookup param)).length : ℚ) :=
        div_nonneg (list_sum_nonneg_rat _ (fun x hx => (hpcs x hx).1)) (le_of_lt hpl)
      linarith

/-- Witness for C7 at a concrete two-page selection with one classifier
confidence entry. -/
theorem matchConfidence_formula_witness :
    (∀ p ∈ [(⟨1, "a b", [], [("k", 1 / 2)]⟩ : DocumentPage), ⟨2, "c d", [], []⟩],
      ∀ e ∈ p.paramConfidence, 0 ≤ e.2 ∧ e.2 ≤ 1)
    ∧ 0 ≤ calculateMatchConfidence "k"
        [(⟨1, "a b", [], [("k", 1 / 2)]⟩ : DocumentPage), ⟨2, "c d", [], []⟩]
    ∧ calculateMatchConfidence "k"
        [(⟨1, "a b", [], [("k", 1 / 2)]⟩ : DocumentPage), ⟨2, "c d", [], []⟩] ≤ 1 :=
  ⟨by
    intro p hp e he
    fin_cases hp
    · fin_cases he
      norm_num
    · simp at he,
   (matchConfidence_formula "k"
     [(⟨1, "a b", [], [("k", 1 / 2)]⟩ : DocumentPage), ⟨2, "c d", [], []⟩]
     (by
       intro p hp e he
       fin_cases hp
       · fin_cases he
         norm_num
       · simp at he)).2.2.1,
   (matchConfidence_formula "k"
     [(⟨1, "a b", [], [("k", 1 / 2)]⟩ : DocumentPage), ⟨2, "c d", [], []⟩]
     (by
       intro p hp e he
       fin_cases hp
       · fin_cases he
         norm_num
       · simp at he)).2.2.2⟩

/-- The classifier's per-parameter confidence entries always lie in
`[0, 1]` (fraction of matched keywords), discharging C7's hypothesis in
the real pipeline. -/
theorem parameterConfidenceScores_bounds (ptable : List (String × List String))
    (contentLower : List Char) (relevant : List String) :
    ∀ e ∈ parameterConfidenceScores ptable contentLower relevant,
      0 ≤ e.2 ∧ e.2 ≤ 1 := by
  intro e he
  unfold parameterConfidenceScores at he
  rw [List.mem_filterMap] at he
  obtain ⟨param, _, hl⟩ := he
  cases hlk : List.lookup param ptable with
  | none => rw [hlk] at hl; cases hl
  | some kws =>
    rw [hlk] at hl
    simp only [Option.map_some', Option.some.injEq] at hl
    subst hl
    dsimp only
    unfold keywordFraction
    split
    · exact ⟨le_rfl, by norm_num⟩
    · rename_i hkl
      have hpos : 0 < (kws.length : ℚ) := by
        have : 0 < kws.length := Nat.pos_of_ne_zero hkl
        exact_mod_cast this
      constructor
      · positivity
      · rw [div_le_one hpos]
        exact_mod_cast List.countP_le_length _

/-! ## Whitespace-only pages -/

theorem toLower_whitespace (c : Char) (h : c.isWhitespace = true) : c.toLower = c := by
  simp [Char.isWhitespace] at h
  rcases h with ((h | h) | h) | h <;> subst h <;> decide

theorem lowerChars_whitespace (s : List Char) (h : ∀ c ∈ s, c.isWhitespace = true) :
    ∀ c ∈ lowerChars s, c.isWhitespace = true := by
  intro c hc
  unfold lowerChars at hc
  rw [List.mem_map] at hc
  obtain ⟨c', hc', rfl⟩ := hc
  rw [toLower_whitespace c' (h c' hc')]
  exact h c' hc'

theorem countWordsAux_whitespace (s : List Char) (h : ∀ c ∈ s, c.isWhitespace = true) :
    ∀ b, countWordsAux b s = 0 := by
  induction s with
  | nil => intro b; rfl
  | cons c rest ih =>
    intro b
    unfold countWordsAux
    rw [if_pos (h c (List.mem_cons_self _ _))]
    exact ih (fun c' hc' => h c' (List.mem_cons_of_mem _ hc')) false

theorem countWords_whitespace (s : List Char) (h : ∀ c ∈ s, c.isWhitespace = true) :
    countWords s = 0 :=
  countWordsAux_whitespace s h false

/-- A prefix of a list inherits any pointwise property. -/
theorem isPrefixOf_pointwise (P : Char → Prop) :
    ∀ (kw s : List Char), kw.isPrefixOf s = true → (∀ c ∈ s, P c) → ∀ c ∈ kw, P c := by
  intro kw
  induction kw with
  | nil => intro s _ _ c hc; cases hc
  | cons k ks ih =>
    intro s hpre hs c hc
    cases s with
    | nil => cases hpre
    | cons a rest =>
      simp only [List.isPrefixOf, Bool.and_eq_true, beq_iff_eq] at hpre
      rcases List.mem_cons.mp hc with h | h
      · subst h
        rw [hpre.1]
        exact hs a (List.mem_cons_self _ _)
      · exact ih rest hpre.2 (fun c' hc' => hs c' (List.mem_cons_of_mem _ hc')) c h

/-- A contained substring inherits any pointwise property of the text. -/
theorem containsSub_pointwise (P : Char → Prop) :
    ∀ (s kw : List Char), containsSub kw s = true → (∀ c ∈ s, P c) → ∀ c ∈ kw, P c := by
  intro s
  induction s with
  | nil =>
    intro kw hsub _ c hc
    unfold containsSub at hsub
    rw [List.isEmpty_iff] at hsub
    subst hsub
    cases hc
  | cons a rest ih =>
    intro kw hsub hs c hc
    unfold containsSub at hsub
    rw [Bool.or_eq_true] at hsub
    rcases hsub with h | h
    · exact isPrefixOf_pointwise P kw (a :: rest) h hs c hc
    · exact ih kw h (fun c' hc' => hs c' (List.mem_cons_of_mem _ hc')) c hc

theorem containsSub_whitespace_false (kw s : List Char)
    (hkw : ∃ c ∈ kw, c.isWhitespace = false) (hs : ∀ c ∈ s, c.isWhitespace = true) :
    containsSub kw s = false := by
  cases hc : containsSub kw s with
  | false => rfl
  | true =>
    obtain ⟨c, hck, hcw⟩ := hkw
    have := containsSub_pointwise (fun c => c.isWhitespace = true) s kw hc hs c hck
    rw [this] at hcw
    cases hcw

theorem countBoundaryAux_whitespace (kw : List Char)
    (hkw : ∃ c ∈ kw, c.isWhitespace = false) :
    ∀ (s : List Char), (∀ c ∈ s, c.isWhitespace = true) →
      ∀ (prev : Option Char) (skip : Nat), countBoundaryAux kw prev skip s = 0 := by
  have hkwne : kw.isEmpty = false := by
    obtain ⟨c, hck, _⟩ := hkw
    cases kw with
    | nil => cases hck
    | cons a l => rfl
  intro s
  induction s with
  | nil =>
    intro _ prev skip
    cases skip with
    | zero => simp [countBoundaryAux, hkwne]
    | succ n => simp [countBoundaryAux, hkwne]
  | cons c rest ih =>
    intro hs prev skip
    have hrest := fun c' hc' => hs c' (List.mem_cons_of_mem _ hc')
    cases skip with
    | succ n => exact ih hrest (some c) n
    | zero =>
      have heq : countBoundaryAux kw prev 0 (c :: rest) =
          if kw.isEmpty = true then
            (if wordBoundary prev (some c) = true then 1 else 0)
              + countBoundaryAux kw (some c) 0 rest
          else if (kw.isPrefixOf (c :: rest) && wordBoundary prev kw.head?
              && wordBoundary kw.getLast? (((c :: rest).drop kw.length).head?)) = true
          then 1 + countBoundaryAux kw (some c) (kw.length - 1) rest
          else countBoundaryAux kw (some c) 0 rest := rfl
      rw [heq, if_neg (by rw [hkwne]; exact Bool.false_ne_true)]
      by_cases hcond : (kw.isPrefixOf (c :: rest)
          && wordBoundary prev kw.head?
          && wordBoundary kw.getLast? (((c :: rest).drop kw.length).head?)) = true
      · exfalso
        rw [Bool.and_eq_true, Bool.and_eq_true] at hcond
        obtain ⟨c', hck, hcw⟩ := hkw
        have := isPrefixOf_pointwise (fun c => c.isWhitespace = true) kw (c :: rest)
          hcond.1.1 hs c' hck
        rw [this] at hcw
        cases hcw
      · rw [if_neg hcond]
        exact ih hrest (some c) 0

theorem hasBoundary_whitespace_false (kw s : List Char)
    (hkw : ∃ c ∈ kw, c.isWhitespace = false) (hs : ∀ c ∈ s, c.isWhitespace = true) :
    hasBoundary kw s = false := by
  unfold hasBoundary countBoundary
  rw [countBoundaryAux_whitespace kw hkw s hs none 0]
  rfl

theorem relevanceScore_whitespace (kws : List String) (content : List Char)
    (hkws : ∀ kw ∈ kws, ∃ c ∈ kw.data, c.isWhitespace = false)
    (hs : ∀ c ∈ content, c.isWhitespace = true) :
    relevanceScore kws content = 0 := by
  unfold relevanceScore
  induction kws with
  | nil => rfl
  | cons kw rest ih =>
    rw [List.foldl_cons,
      containsSub_whitespace_false kw.data content (hkws kw (List.mem_cons_self _ _)) hs,
      hasBoundary_whitespace_false kw.data content (hkws kw (List.mem_cons_self _ _)) hs]
    simpa using ih (fun kw' h' => hkws kw' (List.mem_cons_of_mem _ h'))

theorem typeScore_whitespace (kws : List String) (content : List Char)
    (hkws : ∀ kw ∈ kws, ∃ c ∈ kw.data, c.isWhitespace = false)
    (hs : ∀ c ∈ content, c.isWhitespace = true) :
    typeScore kws content = 0 := by
  unfold typeScore
  induction kws with
  | nil => rfl
  | cons kw rest ih =>
    rw [List.foldl_cons,
      containsSub_whitespace_false kw.data content (hkws kw (List.mem_cons_self _ _)) hs]
    simpa using ih (fun kw' h' => hkws kw' (List.mem_cons_of_mem _ h'))

theorem findRelevantParameters_whitespace (ptable : List (String × List String))
    (content : List Char)
    (hpkw : ∀ e ∈ ptable, ∀ kw ∈ e.2, ∃ c ∈ kw.data, c.isWhitespace = false)
    (hs : ∀ c ∈ content, c.isWhitespace = true) :
    findRelevantParameters ptable content = [] := by
  unfold findRelevantParameters
  rw [List.filterMap_eq_nil_iff]
  intro e he
  rw [relevanceScore_whitespace e.2 content (hpkw e he) hs]
  rw [if_neg (by omega)]

/-- The content-analysis strategies never keep an empty page. -/
theorem contentAnalysis_wordCount_pos (cfg : MatcherConfig) (param : String)
    (pages : List DocumentPage) :
    ∀ p ∈ findPagesByContentAnalysis cfg param pages, p.wordCount ≠ 0 := by
  unfold findPagesByContentAnalysis findClientNamePages findTenderNamePages
    findThresholdPages findPeriodPages findEvaluationPages findGuaranteePages
    findAuthorPages genericParameterSearch
  split_ifs
  · exact fun p hp => (mem_searchPages _ _ _ p hp).2.1
  · dsimp only
    split
    · exact fun p hp => (mem_searchPages _ _ _ p hp).2.1
    · exact fun p hp => (mem_searchPages _ _ _ p hp).2.1
  · exact fun p hp => (mem_searchPages _ _ _ p hp).2.1
  · exact fun p hp => (mem_searchPages _ _ _ p hp).2.1
  · exact fun p hp => (mem_searchPages _ _ _ p hp).2.1
  · exact fun p hp => (mem_searchPages _ _ _ p hp).2.1
  · dsimp only
    intro p hp
    have hm := (dedupByPageNumber_sublist _ _).subset hp
    rcases List.mem_append.mp hm with h | h
    · exact (mem_searchPages _ _ _ p h).2.1
    · exact (mem_searchPages _ _ _ p h).2.1
  · exact fun p hp => (mem_searchPages _ _ _ p hp).2.1

/-- C9 (amended): an empty or whitespace-only page is always classified
`OTHER` (for keyword tables whose keywords each contain a non-whitespace
character), and — on classifier-tagged inputs in which at least one page
has more than 50 words — such a page never appears in any parameter's
matched pages.  (Without a page of more than 50 words the last-resort
fallback returns the first three pages and can include empty pages.) -/
theorem emptyPage_other_and_unmatched (table : List (PageType × List String))
    (ptable : List (String × List String)) (cfg : MatcherConfig) (param : String)
    (pages : List DocumentPage) (page : DocumentPage)
    (htkw : ∀ e ∈ table, ∀ kw ∈ e.2, ∃ c ∈ kw.data, c.isWhitespace = false)
    (hpkw : ∀ e ∈ ptable, ∀ kw ∈ e.2, ∃ c ∈ kw.data, c.isWhitespace = false)
    (hws : ∀ c ∈ page.content.data, c.isWhitespace = true)
    (htag : ∀ q ∈ pages, q.relevantParameters
        = findRelevantParameters ptable (lowerChars q.content.data))
    (hrich : ∃ q ∈ pages, 50 < q.wordCount) :
    classifyPageType table (lowerChars page.content.data) = PageType.other
    ∧ page ∉ (matchSingleParameter cfg param pages).pages := by
  have hlws : ∀ c ∈ lowerChars page.content.data, c.isWhitespace = true :=
    lowerChars_whitespace page.content.data hws
  constructor
  · exact classifyPageType_eq_other_of_all_zero table _
      (fun e he => typeScore_whitespace e.2 _ (htkw e he) hlws)
  · have hwc0 : page.wordCount = 0 := countWords_whitespace page.content.data hws
    have hnotsearch : ∀ (ps : List DocumentPage) (kws : List String) (m : Nat),
        page ∉ searchPagesByKeywords ps kws m := by
      intro ps kws m hp
      exact (mem_searchPages ps kws m page hp).2.1 hwc0
    have hnottag : page ∉ getPagesWithParameter pages param := by
      intro hp
      unfold getPagesWithParameter at hp
      rw [List.mem_filter] at hp
      have hrel := htag page hp.1
      have hmem : param ∈ page.relevantParameters := of_decide_eq_true hp.2
      rw [hrel, findRelevantParameters_whitespace ptable _ hpkw
        (lowerChars_whitespace page.content.data hws)] at hmem
      cases hmem
    have hnotfall : page ∉ useFallbackStrategy cfg param pages :=
      fun hp => fallback_wordCount_pos cfg param pages hrich page hp hwc0
    have hnotCA : page ∉ findPagesByContentAnalysis cfg param pages :=
      fun hp => contentAnalysis_wordCount_pos cfg param pages page hp hwc0
    unfold matchSingleParameter
    split
    · simp
    · dsimp only
      intro hp
      have hp' := (sortByPageNumber_perm _).mem_iff.mp hp
      split at hp'
      · split at hp'
        · split at hp'
          · exact hnotfall hp'
          · have := (sortByWordCountDesc_perm _).mem_iff.mp
              ((List.take_sublist _ _).subset hp')
            exact hnottag this
        · split at hp'
          · exact hnotfall hp'
          · exact hnottag hp'
      · exact hnotCA hp'

/-- Counterexample to C9 as stated: a document of two whitespace-only
pages makes every search stage fail, and the last-resort fallback returns
those very pages, so a whitespace-only page does appear in the matched
pages. -/
theorem emptyPage_matched_counterexample :
    (∀ c ∈ (⟨1, " ", [], []⟩ : DocumentPage).content.data, c.isWhitespace = true)
    ∧ (⟨1, " ", [], []⟩ : DocumentPage)
        ∈ (matchSingleParameter sampleConfig "foo" wsPages).pages := by
  have hz : ∀ p ∈ wsPages, p.wordCount = 0
      ∨ keywordScore ["foo", "foo"] (lowerChars p.content.data) = 0 := by
    intro p hp
    left
    fin_cases hp <;> decide
  have hgen : generateParameterKeywords sampleConfig.genericSearch "foo"
      = ["foo", "foo"] := by decide
  have hsearch : searchPagesByKeywords wsPages ["foo", "foo"] 3 = [] :=
    searchPages_eq_nil _ _ _ (scoredPages_eq_nil _ _ hz)
  have hc1 : findPagesByContentAnalysis sampleConfig "foo" wsPages = [] := by
    unfold findPagesByContentAnalysis
    rw [if_neg (by decide), if_neg (by decide), if_neg (by decide), if_neg (by decide),
      if_neg (by decide), if_neg (by decide), if_neg (by decide)]
    unfold genericParameterSearch
    rw [hgen]
    exact hsearch
  have ht : getPagesWithParameter wsPages "foo" = [] := by decide
  have hcp : fallbackContentPages wsPages = [] := by decide
  have hfb : useFallbackStrategy sampleConfig "foo" wsPages = wsPages := by
    unfold useFallbackStrategy
    dsimp only
    rw [hgen, hsearch]
    rw [if_neg (by simp), hcp]
    rw [if_pos (show List.isEmpty ([] : List DocumentPage) = true from rfl)]
    rfl
  have hm : (matchSingleParameter sampleConfig "foo" wsPages).pages
      = sortByPageNumber wsPages := by
    unfold matchSingleParameter
    rw [if_neg (show ¬ ("foo" : String) = "idea_author" by decide)]
    dsimp only
    rw [hc1, ht]
    rw [if_pos (show List.isEmpty ([] : List DocumentPage) = true from rfl)]
    rw [if_neg (show ¬ 6 < ([] : List DocumentPage).length by decide)]
    rw [if_pos (show List.isEmpty ([] : List DocumentPage) = true from rfl), hfb]
  refine ⟨by decide, ?_⟩
  rw [hm]
  decide

/-- Witness for the amended C9 at concrete tables and pages. -/
theorem emptyPage_other_and_unmatched_witness :
    ((∀ e ∈ [(PageType.coverPage, ["tender"])], ∀ kw ∈ e.2,
        ∃ c ∈ kw.data, c.isWhitespace = false)
      ∧ (∀ e ∈ [("client_name", ["client"])], ∀ kw ∈ e.2,
        ∃ c ∈ kw.data, c.isWhitespace = false)
      ∧ (∀ c ∈ (⟨9, " ", [], []⟩ : DocumentPage).content.data, c.isWhitespace = true)
      ∧ (∀ q ∈ [(⟨1, richPageText, [], []⟩ : DocumentPage)], q.relevantParameters
          = findRelevantParameters [("client_name", ["client"])]
              (lowerChars q.content.data))
      ∧ (∃ q ∈ [(⟨1, richPageText, [], []⟩ : DocumentPage)], 50 < q.wordCount))
    ∧ (classifyPageType [(PageType.coverPage, ["tender"])]
          (lowerChars (⟨9, " ", [], []⟩ : DocumentPage).content.data) = PageType.other
      ∧ (⟨9, " ", [], []⟩ : DocumentPage)
          ∉ (matchSingleParameter sampleConfig "foo"
              [(⟨1, richPageText, [], []⟩ : DocumentPage)]).pages) :=
  ⟨⟨by decide, by decide, by decide, by decide, by decide⟩,
   emptyPage_other_and_unmatched [(PageType.coverPage, ["tender"])]
     [("client_name", ["client"])] sampleConfig "foo"
     [(⟨1, richPageText, [], []⟩ : DocumentPage)] ⟨9, " ", [], []⟩
     (by decide) (by decide) (by decide) (by decide) (by decide)⟩

end TenderSpec
